import Mathlib

/-!
# TilesRT: tile scheduler, light-transport integrator, pixel quantiser, mesh placement

A shallow embedding of `multithreading.h`, `color.h`, `mesh.h` and of `ray_color` in
`main.cpp`.

Conventions of the embedding.

* C++ `int` is a mathematical integer with every operation checked against the 32-bit
  range: an operation whose result is not representable (signed overflow, division by
  zero) is undefined behaviour and yields `none`.
* C++ `double` is idealised by a linearly ordered field `K` with a floor function
  (the reals; the rationals for evaluation).  Rounding, infinities and NaN are outside
  the model, and so is a division by zero, for which the field's `x / 0 = 0` stands in.
  The C library `sqrt` is a parameter.
* `triangle::hit` divides with no guard, so its model alone computes on `xdouble K`:
  a finite value of `K`, an infinity or NaN, with the arithmetic and the comparisons of
  a `double` on them.
* Calls that may consume random numbers (`random_double`, `camera::get_ray`,
  `hittable::hit`, `material::scatter`) pass an explicit state `σ`.
* Stores to the framebuffer and queries to the scene are recorded in traces.
-/

namespace TilesRT

/-! ## Machine integers -/

/-- Smallest value of a 32-bit `int`. -/
def INT_MIN : Int := -2147483648

/-- Largest value of a 32-bit `int`. -/
def INT_MAX : Int := 2147483647

/-- The result of an `int` computation: defined only when representable. -/
def int_result (x : Int) : Option Int :=
  if INT_MIN ≤ x ∧ x ≤ INT_MAX then some x else none

/-- Addition `a + b` on `int`. -/
def int_add (a b : Int) : Option Int := int_result (a + b)

/-- Subtraction `a - b` on `int`. -/
def int_sub (a b : Int) : Option Int := int_result (a - b)

/-- Multiplication `a * b` on `int`. -/
def int_mul (a b : Int) : Option Int := int_result (a * b)

/-- Division `a / b` on `int`: truncating, undefined for a zero divisor. -/
def int_div (a b : Int) : Option Int :=
  if b = 0 then none else int_result (Int.tdiv a b)

/-! ## Tile scheduler (`multithreading.h`) -/

/-- The tile-specific arguments of one `render_tile` thread launched by
`render_multithreaded`: `tilenum, x0, y0, x1, y1`. -/
structure TileArgs where
  tilenum : Int
  x0 : Int
  y0 : Int
  x1 : Int
  y1 : Int
deriving DecidableEq, Repr

/-- The loop `for (int i = 0; i < num_threads; i++)` of `render_multithreaded`, with
`k` iterations left and loop counter `i`; it collects the launches
`threads.emplace_back(render_tile, i, x0, 0, x1, height, ...)` in order. -/
def render_multithreaded_loop (width height num_threads tile_width : Int) :
    Nat → Int → Option (List TileArgs)
  | 0, _ => some []
  | k + 1, i => do
    let x0 ← int_mul i tile_width
    let i1 ← int_add i 1
    let x1 ← int_mul i1 tile_width
    let last ← int_sub num_threads 1
    let x1 := if i = last then width else x1
    let rest ← render_multithreaded_loop width height num_threads tile_width k i1
    some (⟨i, x0, 0, x1, height⟩ :: rest)

/-- The function `render_multithreaded`, up to the point where the threads run: the list
of `render_tile` launches, in spawn order.  `tile_width = width / num_threads` is
computed before the loop. -/
def render_multithreaded (width height num_threads : Int) : Option (List TileArgs) := do
  let tile_width ← int_div width num_threads
  render_multithreaded_loop width height num_threads tile_width num_threads.toNat 0

/-- Column `c` lies in the half-open column range `[x0, x1)` of a tile. -/
def TileArgs.has_column (t : TileArgs) (c : Int) : Bool :=
  decide (t.x0 ≤ c ∧ c < t.x1)

/-- The launch of tile `i` written without overflow checks. -/
def tile_at (width height num_threads tile_width i : Int) : TileArgs :=
  ⟨i, i * tile_width, 0,
    if i = num_threads - 1 then width else (i + 1) * tile_width, height⟩

/-- The launches `i, i+1, ..., i+k-1` written without overflow checks. -/
def tiles_from (width height num_threads tile_width : Int) : Nat → Int → List TileArgs
  | 0, _ => []
  | k + 1, i =>
    tile_at width height num_threads tile_width i ::
      tiles_from width height num_threads tile_width k (i + 1)

/-! ## Vectors, rays, hit records (`vec3.h`, `ray.h`, `hittable.h`, `material.h`) -/

section Geometry

variable {K : Type} [LinearOrderedField K]

/-- Modelled from the spec: `vec3.h` is not among the sources.  A `vec3` is a triple of
`double`s; `color` and `point3` are aliases of it. -/
structure vec3 (K : Type) where
  x : K
  y : K
  z : K
deriving DecidableEq, Repr

/-- Alias `color` of `vec3`. -/
abbrev color (K : Type) := vec3 K

/-- Alias `point3` of `vec3`. -/
abbrev point3 (K : Type) := vec3 K

/-- Modelled from the spec: the default constructor `vec3()` gives the zero vector (the
spec's default scale `(0,0,0)`). -/
instance : Zero (vec3 K) := ⟨⟨0, 0, 0⟩⟩

/-- Modelled from the spec: `u + v`, component-wise. -/
instance : Add (vec3 K) := ⟨fun u v => ⟨u.x + v.x, u.y + v.y, u.z + v.z⟩⟩

/-- Modelled from the spec: `u - v`, component-wise. -/
instance : Sub (vec3 K) := ⟨fun u v => ⟨u.x - v.x, u.y - v.y, u.z - v.z⟩⟩

/-- Modelled from the spec: `u * v`, the component-wise product. -/
instance : Mul (vec3 K) := ⟨fun u v => ⟨u.x * v.x, u.y * v.y, u.z * v.z⟩⟩

/-- Modelled from the spec: `t * v`, a vector scaled by a `double`. -/
instance : HMul K (vec3 K) (vec3 K) := ⟨fun t v => ⟨t * v.x, t * v.y, t * v.z⟩⟩

/-- Modelled from the spec: `v / t` is `(1/t) * v`. -/
instance : HDiv (vec3 K) K (vec3 K) := ⟨fun v t => (1 / t) * v⟩

/-- Modelled from the spec: the dot product of `vec3.h`. -/
def dot (u v : vec3 K) : K := u.x * v.x + u.y * v.y + u.z * v.z

/-- Modelled from the spec: the cross product of `vec3.h`. -/
def cross (u v : vec3 K) : vec3 K :=
  ⟨u.y * v.z - u.z * v.y, u.z * v.x - u.x * v.z, u.x * v.y - u.y * v.x⟩

/-- Modelled from the spec: `v.length_squared()`. -/
def vec3.length_squared (v : vec3 K) : K := v.x * v.x + v.y * v.y + v.z * v.z

/-- Modelled from the spec: `v.length()`, the square root of the squared length. -/
def vec3.length (sqrt : K → K) (v : vec3 K) : K := sqrt v.length_squared

/-- Modelled from the spec: `unit_vector(v)` is `v / v.length()`, the spec's
`normalize`. -/
def unit_vector (sqrt : K → K) (v : vec3 K) : vec3 K := v / v.length sqrt

/-- Modelled from the spec: `ray.h` is not among the sources.  A ray has an origin, a
direction and a time. -/
structure ray (K : Type) where
  orig : vec3 K
  dir : vec3 K
  tm : K
deriving DecidableEq, Repr

/-- Modelled from the spec: `hittable.h` is not among the sources.  The record filled by
a successful `hit`; `mat_ptr` is the address of the material, of type `M`. -/
structure hit_record (K M : Type) where
  p : vec3 K
  normal : vec3 K
  mat_ptr : M
  t : K
  u : K
  v : K
  front_face : Bool

/-- Modelled from the spec: the interface `material` with its two virtual methods.
`scatter` returns `none` for `false` (absorbed), else the attenuation and the scattered
ray it has written to its out-parameters; it may draw random numbers. -/
structure material (K M σ : Type) where
  emitted : K → K → vec3 K → vec3 K
  scatter : ray K → hit_record K M → σ → Option (vec3 K × ray K) × σ

/-- Modelled from the spec: the interface `hittable`, reduced to `hit(r, t_min, t_max,
rec)`: `none` for `false`, else the record it has filled.  `t_max` may be the constant
`infinity` of `main.h`, the top element here. -/
structure hittable (K M σ : Type) where
  hit : ray K → K → WithTop K → σ → Option (hit_record K M) × σ

/-- Modelled from the spec: `camera.h` is not among the sources.  `get_ray(u, v)` draws
random numbers for the lens and the shutter time. -/
structure camera (K σ : Type) where
  get_ray : K → K → σ → ray K × σ

end Geometry

/-! ## Light-transport integrator (`multithreading.h`, `main.cpp`) -/

section Integrator

variable {K M σ : Type} [LinearOrderedField K]

/-- What a call of the integrator yields: the colour it returns, the state it leaves,
and the rays it has passed to `world.hit`, in order. -/
structure radiance (K σ : Type) where
  value : vec3 K
  state : σ
  queries : List (ray K)

/-- The function `ray_colora` of `multithreading.h`.  `mats` dereferences a material
pointer.  `depth - 1` is computed only for `depth > 0` and cannot overflow. -/
def ray_colora (mats : M → material K M σ) (r : ray K) (background : vec3 K)
    (world : hittable K M σ) (depth : Int) (s : σ) : radiance K σ :=
  -- If we've exceeded the ray bounce limit, no more light is gathered.
  if depth ≤ 0 then
    ⟨⟨0, 0, 0⟩, s, []⟩
  else
    -- If the ray hits nothing, return the background color.
    match world.hit r 0.001 ⊤ s with
    | (none, s1) => ⟨background, s1, [r]⟩
    | (some rec, s1) =>
      let emitted := (mats rec.mat_ptr).emitted rec.u rec.v rec.p
      match (mats rec.mat_ptr).scatter r rec s1 with
      | (none, s2) => ⟨emitted, s2, [r]⟩
      | (some (attenuation, scattered), s2) =>
        let rest := ray_colora mats scattered background world (depth - 1) s2
        ⟨emitted + attenuation * rest.value, rest.state, r :: rest.queries⟩
termination_by depth.toNat
decreasing_by omega

/-- The function `ray_color` of `main.cpp`, the single-threaded twin of `ray_colora`. -/
def ray_color (mats : M → material K M σ) (r : ray K) (background : vec3 K)
    (world : hittable K M σ) (depth : Int) (s : σ) : radiance K σ :=
  -- If we've exceeded the ray bounce limit, no more light is gathered.
  if depth ≤ 0 then
    ⟨⟨0, 0, 0⟩, s, []⟩
  else
    -- If the ray hits nothing, return the background color.
    match world.hit r 0.001 ⊤ s with
    | (none, s1) => ⟨background, s1, [r]⟩
    | (some rec, s1) =>
      let emitted := (mats rec.mat_ptr).emitted rec.u rec.v rec.p
      match (mats rec.mat_ptr).scatter r rec s1 with
      | (none, s2) => ⟨emitted, s2, [r]⟩
      | (some (attenuation, scattered), s2) =>
        let rest := ray_color mats scattered background world (depth - 1) s2
        ⟨emitted + attenuation * rest.value, rest.state, r :: rest.queries⟩
termination_by depth.toNat
decreasing_by omega

end Integrator

/-! ## Pixel quantiser (`color.h`) -/

section Quantiser

variable {K : Type} [LinearOrderedField K] [FloorRing K]

/-- Modelled from the spec: `clamp` of `main.h`, which is not among the sources; it
clamps `x` to `[min, max]`. -/
def clamp (x min max : K) : K :=
  if x < min then min else if x > max then max else x

/-- Truncation of a `double` toward zero. -/
def trunc (x : K) : Int := if 0 ≤ x then ⌊x⌋ else ⌈x⌉

/-- The conversion `static_cast<unsigned char>(x)` of a `double`: truncation toward
zero, undefined when the truncated value is not in `[0, 255]`. -/
def static_cast_uchar (x : K) : Option Nat :=
  let t : Int := trunc x
  if 0 ≤ t ∧ t ≤ 255 then some t.toNat else none

/-- The function `write_color` of `color.h`: the three stores `image_data[index] = ...`
it performs, as (offset, byte) pairs in program order. -/
def write_color (sqrt : K → K) (pixel_color : vec3 K) (image_width i j
    samples_per_pixel : Int) : Option (List (Int × Nat)) := do
  let r := pixel_color.x
  let g := pixel_color.y
  let b := pixel_color.z
  -- Divide the color by the number of samples.
  let scale : K := 1.0 / (samples_per_pixel : K)
  let r := sqrt (scale * r)
  let g := sqrt (scale * g)
  let b := sqrt (scale * b)
  let jw ← int_mul j image_width
  let jwi ← int_add jw i
  let index ← int_mul 3 jwi
  let byte0 ← static_cast_uchar (256 * clamp r 0.0 0.999)
  let index1 ← int_add index 1
  let byte1 ← static_cast_uchar (256 * clamp g 0.0 0.999)
  let index2 ← int_add index 2
  let byte2 ← static_cast_uchar (256 * clamp b 0.0 0.999)
  some [(index, byte0), (index1, byte1), (index2, byte2)]

/-- The quantiser in the words of the spec: divide the channel by `sample_count`, take
the square root, clamp to `[0.0, 0.999]`, scale by 256 and truncate. -/
def quantize_channel (sqrt : K → K) (c : K) (sample_count : Int) : Int :=
  trunc (256 * clamp (sqrt (c / (sample_count : K))) 0.0 0.999)

/-- Channel `k` of a colour: `x`, `y`, `z` for `0`, `1`, `2`. -/
def vec3.channel (v : vec3 K) (k : Fin 3) : K :=
  match k with
  | 0 => v.x
  | 1 => v.y
  | 2 => v.z

end Quantiser

/-! ## One tile (`render_tile` of `multithreading.h`) -/

section Tile

variable {K M σ : Type} [LinearOrderedField K] [FloorRing K]

/-- The sample loop `for (int s = 0; s < samples_per_pixel; ++s)` of `render_tile` for
the pixel `(i, j)`, with `n` iterations left: the accumulated `pixel_color` and the
state. -/
def render_tile_samples (mats : M → material K M σ) (random_double : σ → K × σ)
    (max_depth width height : Int) (cam : camera K σ) (world : hittable K M σ)
    (background : vec3 K) (i j : Int) : Nat → vec3 K → σ → Option (vec3 K × σ)
  | 0, pixel_color, st => some (pixel_color, st)
  | n + 1, pixel_color, st => do
    let (rd, st) := random_double st
    let w1 ← int_sub width 1
    let u := ((i : K) + rd) / (w1 : K)
    let (rd, st) := random_double st
    let h1 ← int_sub height 1
    let v := ((j : K) + rd) / (h1 : K)
    let (r, st) := cam.get_ray u v st
    let res := ray_colora mats r background world max_depth st
    render_tile_samples mats random_double max_depth width height cam world background
      i j n (pixel_color + res.value) res.state

/-- The column loop `for (int i = x0; i < x1; i++)` of `render_tile` in row `j`, with
`n` iterations left and loop counter `i`: the stores performed and the state. -/
def render_tile_row (mats : M → material K M σ) (sqrt : K → K)
    (random_double : σ → K × σ) (max_depth width height samples_per_pixel : Int)
    (cam : camera K σ) (world : hittable K M σ) (background : vec3 K) (j : Int) :
    Nat → Int → σ → Option (List (Int × Nat) × σ)
  | 0, _, st => some ([], st)
  | n + 1, i, st => do
    let (pixel_color, st) ← render_tile_samples mats random_double max_depth width height
      cam world background i j samples_per_pixel.toNat ⟨0, 0, 0⟩ st
    let stores ← write_color sqrt pixel_color width i j samples_per_pixel
    let (rest, st) ← render_tile_row mats sqrt random_double max_depth width height
      samples_per_pixel cam world background j n (i + 1) st
    some (stores ++ rest, st)

/-- The row loop `for (int j = y0; j < y1; j++)` of `render_tile`, with `n` iterations
left and loop counter `j`. -/
def render_tile_rows (mats : M → material K M σ) (sqrt : K → K)
    (random_double : σ → K × σ) (x0 x1 max_depth width height samples_per_pixel : Int)
    (cam : camera K σ) (world : hittable K M σ) (background : vec3 K) :
    Nat → Int → σ → Option (List (Int × Nat) × σ)
  | 0, _, st => some ([], st)
  | n + 1, j, st => do
    let (stores, st) ← render_tile_row mats sqrt random_double max_depth width height
      samples_per_pixel cam world background j (x1 - x0).toNat x0 st
    let (rest, st) ← render_tile_rows mats sqrt random_double x0 x1 max_depth width height
      samples_per_pixel cam world background n (j + 1) st
    some (stores ++ rest, st)

/-- What a run of `render_tile` yields: the stores to `img` in program order, the
counter `per` and the state. -/
structure tile_run (σ : Type) where
  stores : List (Int × Nat)
  per : Int
  state : σ

/-- The function `render_tile` of `multithreading.h`, run on its own.  The loop
counters stay below their `int` bounds, so their increments cannot overflow. -/
def render_tile (mats : M → material K M σ) (sqrt : K → K)
    (random_double : σ → K × σ) (tilenum x0 y0 x1 y1 max_depth width height
    samples_per_pixel : Int) (cam : camera K σ) (world : hittable K M σ)
    (background : vec3 K) (per : Int) (st : σ) : Option (tile_run σ) := do
  -- `tilenum` is not used
  let _ := tilenum
  let (stores, st) ← render_tile_rows mats sqrt random_double x0 x1 max_depth width height
    samples_per_pixel cam world background (y1 - y0).toNat y0 st
  let per ← int_sub per 1
  some ⟨stores, per, st⟩

/-- The byte offsets of the pixels `(i, j), ..., (i+n-1, j)`, three per pixel. -/
def row_offsets (width j : Int) : Nat → Int → List Int
  | 0, _ => []
  | n + 1, i =>
    [3 * (j * width + i), 3 * (j * width + i) + 1, 3 * (j * width + i) + 2] ++
      row_offsets width j n (i + 1)

/-- The byte offsets of the pixels of columns `[x0, x1)` in rows `j, ..., j+n-1`. -/
def rows_offsets (width x0 x1 : Int) : Nat → Int → List Int
  | 0, _ => []
  | n + 1, j => row_offsets width j (x1 - x0).toNat x0 ++ rows_offsets width x0 x1 n (j + 1)

end Tile

/-! ## Triangles and meshes (`mesh.h`) -/

section Mesh

variable {K M : Type} [LinearOrderedField K]

/-- The class `triangle` of `mesh.h`: its data members. -/
structure triangle (K M : Type) where
  v0 : vec3 K
  v1 : vec3 K
  v2 : vec3 K
  normal : vec3 K
  mat_ptr : M
  position : vec3 K
  rotation : vec3 K
  scale : vec3 K

/-- The constructor `triangle(v0, v1, v2, mat)`: it stores the vertices and the
material and precomputes `normal = unit_vector(cross(v1 - v0, v2 - v0))`; `position`,
`rotation` and `scale` are default-constructed `vec3`s. -/
def triangle.init (sqrt : K → K) (v0 v1 v2 : vec3 K) (mat : M) : triangle K M :=
  { v0 := v0, v1 := v1, v2 := v2,
    normal := unit_vector sqrt (cross (v1 - v0) (v2 - v0)),
    mat_ptr := mat, position := 0, rotation := 0, scale := 0 }

/-- A line of a mesh file as `load_obj_file` reads it: an empty or `#` line, a record
`v x y z`, a record `f a b c` (the values `std::stoi` gives for its three tokens), or a
record of another type. -/
inductive obj_line (K : Type) where
  | skip : obj_line K
  | v : K → K → K → obj_line K
  | f : Int → Int → Int → obj_line K
  | other : obj_line K

/-- The loop `while (std::getline(file, line))` of `load_obj_file`, on the lines left,
with the `vertices` and `triangles` read so far.  `lambertian` is the address of the
material that `make_shared<lambertian>` gives to a loaded triangle. -/
def load_obj_file_loop (sqrt : K → K) (lambertian : M) :
    List (obj_line K) → List (vec3 K) → List (triangle K M) → Option (List (triangle K M))
  | [], _, triangles => some triangles
  | obj_line.skip :: rest, vertices, triangles =>
    -- Skip empty or comment lines
    load_obj_file_loop sqrt lambertian rest vertices triangles
  | obj_line.v x y z :: rest, vertices, triangles =>
    load_obj_file_loop sqrt lambertian rest (vertices ++ [⟨x, y, z⟩]) triangles
  | obj_line.f a b c :: rest, vertices, triangles => do
    let idx0 ← int_sub a 1
    let idx1 ← int_sub b 1
    let idx2 ← int_sub c 1
    if idx0 < 0 ∨ idx0 ≥ vertices.length ∨
        idx1 < 0 ∨ idx1 ≥ vertices.length ∨
        idx2 < 0 ∨ idx2 ≥ vertices.length then
      -- Error: Invalid vertex index in file
      some triangles
    else
      let trib := triangle.init sqrt (vertices.getD idx0.toNat 0)
        (vertices.getD idx1.toNat 0) (vertices.getD idx2.toNat 0) lambertian
      load_obj_file_loop sqrt lambertian rest vertices (triangles ++ [trib])
  | obj_line.other :: rest, vertices, triangles =>
    load_obj_file_loop sqrt lambertian rest vertices triangles

/-- The function `load_obj_file`; `file` is `none` when the file cannot be opened, else
its lines. -/
def load_obj_file (sqrt : K → K) (lambertian : M) (file : Option (List (obj_line K))) :
    Option (List (triangle K M)) :=
  match file with
  | none =>
    -- Error: Unable to open file
    some []
  | some lines => load_obj_file_loop sqrt lambertian lines [] []

/-- The loop `for (auto& tri : triangles_list)` of the `triangle_mesh` constructor, on
the triangles left, with the list `triangles` built so far.  `rotate` is the function of
that name of `vec3.h`, which is not among the sources. -/
def triangle_mesh_loop (sqrt : K → K) (rotate : vec3 K → vec3 K → vec3 K) (mat_ptr : M)
    (pos rot scal : vec3 K) : List (triangle K M) → List (triangle K M) → List (triangle K M)
  | [], triangles => triangles
  | tri :: rest, triangles =>
    let tri := { tri with position := pos }
    let tri := { tri with rotation := rot }
    let tri := { tri with scale := scal }
    -- Apply scaling to each vertex of the triangle
    let tri := { tri with v0 := tri.v0 * scal }
    let tri := { tri with v1 := tri.v1 * scal }
    let tri := { tri with v2 := tri.v2 * scal }
    -- Apply rotation to each vertex of the triangle
    let tri := { tri with v0 := rotate tri.v0 rot + pos }
    let tri := { tri with v1 := rotate tri.v1 rot + pos }
    let tri := { tri with v2 := rotate tri.v2 rot + pos }
    -- Create a new transformed triangle
    let transformed_tri := triangle.init sqrt tri.v0 tri.v1 tri.v2 mat_ptr
    triangle_mesh_loop sqrt rotate mat_ptr pos rot scal rest (triangles ++ [transformed_tri])

/-- The class `triangle_mesh` of `mesh.h`: its data members, the `hittable_list` being
the list of its objects. -/
structure triangle_mesh (K M : Type) where
  triangles : List (triangle K M)
  mat_ptr : M

/-- The constructor `triangle_mesh(filename, mat, pos, rot, scal)`; `file` stands for
the content found under `filename`. -/
def triangle_mesh.init (sqrt : K → K) (rotate : vec3 K → vec3 K → vec3 K) (lambertian : M)
    (file : Option (List (obj_line K))) (mat : M) (pos rot scal : vec3 K) :
    Option (triangle_mesh K M) := do
  let triangles_list ← load_obj_file sqrt lambertian file
  some ⟨triangle_mesh_loop sqrt rotate mat pos rot scal triangles_list [], mat⟩

/-- The placement of a vertex in the words of the spec: scaled component-wise, then
rotated, then translated. -/
def place_vertex (rotate : vec3 K → vec3 K → vec3 K) (pos rot scal v : vec3 K) : vec3 K :=
  rotate (v * scal) rot + pos

/-- A rotation about the Y axis, for evaluation: the angle is given by the tangent
`rot.y` of its half, so that it is rational; zero angles give the identity. -/
def sample_rotate (v rot : vec3 K) : vec3 K :=
  let c := (1 - rot.y * rot.y) / (1 + rot.y * rot.y)
  let s := 2 * rot.y / (1 + rot.y * rot.y)
  ⟨c * v.x + s * v.z, v.y, -s * v.x + c * v.z⟩

/-- A mesh file, for evaluation: five vertices and two faces, the unit triangle at the
origin and a tilted triangle. -/
def sample_obj : List (obj_line K) :=
  [obj_line.skip, obj_line.v 0 0 0, obj_line.v 1 0 0, obj_line.v 0 1 0, obj_line.v 0 0 1,
    obj_line.v 1 (-1) 0, obj_line.f 1 2 3, obj_line.other, obj_line.f 1 4 5]

/-- The two raw triangles of `sample_obj`, with material `false`. -/
def sample_raw (sqrt : K → K) : List (triangle K Bool) :=
  [triangle.init sqrt ⟨0, 0, 0⟩ ⟨1, 0, 0⟩ ⟨0, 1, 0⟩ false,
    triangle.init sqrt ⟨0, 0, 0⟩ ⟨0, 0, 1⟩ ⟨1, -1, 0⟩ false]

end Mesh

/-! ## Doubles with special values, for `triangle::hit` (`mesh.h`)

`triangle::hit` divides by the scale and by a dot product with no guard, so its model
keeps the special values of a `double`: a value is finite (idealised by `K`), an
infinity or NaN.  Finite arithmetic is exact; the sign of a zero is not modelled, a zero
divisor counts as `+0`. -/

section SpecialValues

variable {K M : Type} [LinearOrderedField K]

/-- A `double`: finite, `inf true` for `+infinity`, `inf false` for `-infinity`, or
NaN. -/
inductive xdouble (K : Type) where
  | fin : K → xdouble K
  | inf : Bool → xdouble K
  | nan : xdouble K
deriving DecidableEq, Repr

/-- The negation `-a` of a `double`. -/
def xdouble.neg : xdouble K → xdouble K
  | xdouble.fin a => xdouble.fin (-a)
  | xdouble.inf s => xdouble.inf (!s)
  | xdouble.nan => xdouble.nan

/-- The sum `a + b` of two `double`s: opposite infinities give NaN. -/
def xdouble.add : xdouble K → xdouble K → xdouble K
  | xdouble.fin a, xdouble.fin b => xdouble.fin (a + b)
  | xdouble.fin _, xdouble.inf s => xdouble.inf s
  | xdouble.inf s, xdouble.fin _ => xdouble.inf s
  | xdouble.inf s, xdouble.inf t => if s = t then xdouble.inf s else xdouble.nan
  | xdouble.nan, _ => xdouble.nan
  | _, xdouble.nan => xdouble.nan

/-- The product `a * b` of two `double`s: zero times an infinity gives NaN. -/
def xdouble.mul : xdouble K → xdouble K → xdouble K
  | xdouble.fin a, xdouble.fin b => xdouble.fin (a * b)
  | xdouble.fin a, xdouble.inf s =>
    if a = 0 then xdouble.nan else xdouble.inf (if 0 < a then s else !s)
  | xdouble.inf s, xdouble.fin b =>
    if b = 0 then xdouble.nan else xdouble.inf (if 0 < b then s else !s)
  | xdouble.inf s, xdouble.inf t => xdouble.inf (s == t)
  | xdouble.nan, _ => xdouble.nan
  | _, xdouble.nan => xdouble.nan

/-- The quotient `a / b` of two `double`s: a non-zero number over zero gives an
infinity, zero over zero and an infinity over an infinity give NaN. -/
def xdouble.div : xdouble K → xdouble K → xdouble K
  | xdouble.fin a, xdouble.fin b =>
    if b = 0 then (if a = 0 then xdouble.nan else xdouble.inf (decide (0 < a)))
    else xdouble.fin (a / b)
  | xdouble.fin _, xdouble.inf _ => xdouble.fin 0
  | xdouble.inf s, xdouble.fin b => xdouble.inf (if 0 ≤ b then s else !s)
  | xdouble.inf _, xdouble.inf _ => xdouble.nan
  | xdouble.nan, _ => xdouble.nan
  | _, xdouble.nan => xdouble.nan

/-- The comparison `a < b` of two `double`s: false as soon as one is NaN. -/
def xdouble.lt : xdouble K → xdouble K → Bool
  | xdouble.fin a, xdouble.fin b => decide (a < b)
  | xdouble.fin _, xdouble.inf s => s
  | xdouble.inf s, xdouble.fin _ => !s
  | xdouble.inf s, xdouble.inf t => !s && t
  | xdouble.nan, _ => false
  | _, xdouble.nan => false

/-- Operator `-a` on `double`s. -/
instance : Neg (xdouble K) := ⟨xdouble.neg⟩

/-- Operator `a + b` on `double`s. -/
instance : Add (xdouble K) := ⟨xdouble.add⟩

/-- Operator `a - b` on `double`s: `a + (-b)`. -/
instance : Sub (xdouble K) := ⟨fun a b => xdouble.add a (xdouble.neg b)⟩

/-- Operator `a * b` on `double`s. -/
instance : Mul (xdouble K) := ⟨xdouble.mul⟩

/-- Operator `a / b` on `double`s. -/
instance : Div (xdouble K) := ⟨xdouble.div⟩

/-- A vector of finite `double`s seen as a vector of `double`s. -/
def vec3.to_x (v : vec3 K) : vec3 (xdouble K) :=
  ⟨xdouble.fin v.x, xdouble.fin v.y, xdouble.fin v.z⟩

/-- Modelled from the spec: `u + v` of `vec3.h`, component-wise, on `double`s with
special values. -/
instance : Add (vec3 (xdouble K)) := ⟨fun u v => ⟨u.x + v.x, u.y + v.y, u.z + v.z⟩⟩

/-- Modelled from the spec: `u - v` of `vec3.h`, component-wise, on `double`s with
special values. -/
instance : Sub (vec3 (xdouble K)) := ⟨fun u v => ⟨u.x - v.x, u.y - v.y, u.z - v.z⟩⟩

/-- Modelled from the spec: `u * v` of `vec3.h`, the component-wise product, on
`double`s with special values. -/
instance : Mul (vec3 (xdouble K)) := ⟨fun u v => ⟨u.x * v.x, u.y * v.y, u.z * v.z⟩⟩

/-- Modelled from the spec: `t * v` of `vec3.h`, on `double`s with special values. -/
instance : HMul (xdouble K) (vec3 (xdouble K)) (vec3 (xdouble K)) :=
  ⟨fun t v => ⟨t * v.x, t * v.y, t * v.z⟩⟩

/-- Modelled from the spec: the dot product of `vec3.h`, on `double`s with special
values. -/
def xdot (u v : vec3 (xdouble K)) : xdouble K := u.x * v.x + u.y * v.y + u.z * v.z

/-- Modelled from the spec: the cross product of `vec3.h`, on `double`s with special
values. -/
def xcross (u v : vec3 (xdouble K)) : vec3 (xdouble K) :=
  ⟨u.y * v.z - u.z * v.y, u.z * v.x - u.x * v.z, u.x * v.y - u.y * v.x⟩

/-- The function `divvy` of `mesh.h`: the component-wise quotient. -/
def divvy (v1 v2 : vec3 (xdouble K)) : vec3 (xdouble K) :=
  ⟨v1.x / v2.x, v1.y / v2.y, v1.z / v2.z⟩

/-- The local origin `divvy((r.origin() - position), scale)` that `triangle::hit`
computes. -/
def triangle.local_origin (tri : triangle K M) (r : ray K) : vec3 (xdouble K) :=
  divvy (r.orig.to_x - tri.position.to_x) tri.scale.to_x

/-- The local direction `rotate(divvy(r.direction(), scale), rotation)` that
`triangle::hit` computes.  `rotate` is the function of that name of `vec3.h`, which is
not among the sources. -/
def triangle.local_direction (rotate : vec3 (xdouble K) → vec3 (xdouble K) → vec3 (xdouble K))
    (tri : triangle K M) (r : ray K) : vec3 (xdouble K) :=
  rotate (divvy r.dir.to_x tri.scale.to_x) tri.rotation.to_x

/-- The method `triangle::hit(r, t_min, t_max, rec)` of `mesh.h`: the Boolean it
returns and the record `rec` as it leaves it. -/
def triangle.hit (rotate : vec3 (xdouble K) → vec3 (xdouble K) → vec3 (xdouble K))
    (tri : triangle K M) (r : ray K) (t_min t_max : xdouble K)
    (rec : hit_record (xdouble K) M) : Bool × hit_record (xdouble K) M :=
  -- Transform the ray into object space
  let origin := tri.local_origin r
  let direction := tri.local_direction rotate r
  -- Compute the intersection of the ray with the plane of the triangle
  let t := xdot (tri.v0.to_x - origin) tri.normal.to_x / xdot direction tri.normal.to_x
  if t.lt t_min || t_max.lt t then
    (false, rec)
  else
    -- Compute the intersection point
    let p := origin + t * direction
    -- Check if the intersection point is inside the triangle
    let u := xdot (xcross (tri.v2.to_x - tri.v0.to_x) (p - tri.v0.to_x)) tri.normal.to_x
    let v := xdot (xcross (tri.v0.to_x - tri.v1.to_x) (p - tri.v1.to_x)) tri.normal.to_x
    if u.lt (xdouble.fin 0) || v.lt (xdouble.fin 0) || (xdouble.fin 1).lt (u + v) then
      (false, rec)
    else
      -- Fill in the hit record
      (true, { rec with
        t := t
        p := p * tri.scale.to_x + tri.position.to_x
        normal := rotate tri.normal.to_x tri.rotation.to_x
        mat_ptr := tri.mat_ptr })

/-- The sample rotation about the Y axis computed on `double`s with special values. -/
def sample_rotate_x (v rot : vec3 (xdouble K)) : vec3 (xdouble K) :=
  let c := (xdouble.fin 1 - rot.y * rot.y) / (xdouble.fin 1 + rot.y * rot.y)
  let s := xdouble.fin 2 * rot.y / (xdouble.fin 1 + rot.y * rot.y)
  ⟨c * v.x + s * v.z, v.y, -s * v.x + c * v.z⟩

/-- The standard three-edge sidedness test, in the words of the spec: the point `p` of
the plane of the triangle is inside when it lies on the inner side of each of the edges
`v0 v1`, `v1 v2` and `v2 v0`, the sides being told by the triangle's own normal, so that
the test is the same for both windings. -/
def inside_triangle (tri : triangle K M) (p : vec3 K) : Prop :=
  0 ≤ dot (cross (tri.v1 - tri.v0) (p - tri.v0)) tri.normal ∧
    0 ≤ dot (cross (tri.v2 - tri.v1) (p - tri.v1)) tri.normal ∧
    0 ≤ dot (cross (tri.v0 - tri.v2) (p - tri.v2)) tri.normal

/-- The sidedness test is decidable. -/
instance (tri : triangle K M) (p : vec3 K) : Decidable (inside_triangle tri p) := by
  unfold inside_triangle
  infer_instance

/-- The world-space hit point in the words of the spec: the local hit point scaled, then
rotated by `rotation`, then translated by `position`. -/
def world_point (rotate : vec3 (xdouble K) → vec3 (xdouble K) → vec3 (xdouble K))
    (tri : triangle K M) (p : vec3 (xdouble K)) : vec3 (xdouble K) :=
  rotate (p * tri.scale.to_x) tri.rotation.to_x + tri.position.to_x

/-- The unit triangle `(0,0,0), (1,0,0), (0,1,0)` with the identity transform: position
zero, no rotation, scale one. -/
def sample_unit_triangle (sqrt : K → K) : triangle K Bool :=
  { triangle.init sqrt ⟨0, 0, 0⟩ ⟨1, 0, 0⟩ ⟨0, 1, 0⟩ true with scale := ⟨1, 1, 1⟩ }

/-- The unit triangle with scale one and a quarter turn about the Y axis (half-angle
tangent `1`) as its rotation. -/
def sample_turned_triangle (sqrt : K → K) : triangle K Bool :=
  { triangle.init sqrt ⟨0, 0, 0⟩ ⟨1, 0, 0⟩ ⟨0, 1, 0⟩ true with
    rotation := ⟨0, 1, 0⟩
    scale := ⟨1, 1, 1⟩ }

/-- A hit record before a call of `hit`: all numbers zero, material `false`. -/
def sample_hit_record : hit_record (xdouble K) Bool :=
  ⟨⟨xdouble.fin 0, xdouble.fin 0, xdouble.fin 0⟩,
    ⟨xdouble.fin 0, xdouble.fin 0, xdouble.fin 0⟩, false, xdouble.fin 0, xdouble.fin 0,
    xdouble.fin 0, false⟩

/-- The first triangle that the `triangle_mesh` constructor emits for `sample_obj` placed
with scale `(2,1,1)`, zero rotation and translation `(1,0,0)`. -/
def sample_mesh_triangle (sqrt : K → K) : triangle K Bool :=
  triangle.init sqrt ⟨1, 0, 0⟩ ⟨3, 0, 0⟩ ⟨1, 1, 0⟩ true

end SpecialValues

/-! ## The render dispatch of `main` and its sample loop (`main.cpp`) -/

section Main

variable {K M σ : Type} [LinearOrderedField K]

/-- The renderer that `main` runs: its own single-threaded loop, or a call of
`render_multithreaded` with the launches this call makes. -/
inductive render_choice where
  | single_threaded : render_choice
  | multithreaded : Option (List TileArgs) → render_choice
deriving DecidableEq

/-- The statement `if (imjs["Threads"] == 0) { ... } else { render_multithreaded(...) }`
of `main`, for the thread count `threads` read from the scene file. -/
def main_render (image_width image_height threads : Int) : render_choice :=
  if threads = 0 then render_choice.single_threaded
  else render_choice.multithreaded (render_multithreaded image_width image_height threads)

/-- The two statements `auto u = (i + random_double()) / (width-1);` and
`auto v = (j + random_double()) / (height-1);` of the sample loop of `render_tile`: the
coordinates `u`, `v` and the state after the two draws. -/
def render_tile_uv (random_double : σ → K × σ) (width height i j : Int) (st : σ) :
    Option (K × K × σ) := do
  let (rd, st) := random_double st
  let w1 ← int_sub width 1
  let u := ((i : K) + rd) / (w1 : K)
  let (rd, st) := random_double st
  let h1 ← int_sub height 1
  let v := ((j : K) + rd) / (h1 : K)
  some (u, v, st)

/-- The two statements `auto u = (i + random_double()) / (image_width-1);` and
`auto v = (j + random_double()) / (image_height-1);` of the sample loop of `main`. -/
def main_uv (random_double : σ → K × σ) (image_width image_height i j : Int) (st : σ) :
    Option (K × K × σ) := do
  let (rd, st) := random_double st
  let w1 ← int_sub image_width 1
  let u := ((i : K) + rd) / (w1 : K)
  let (rd, st) := random_double st
  let h1 ← int_sub image_height 1
  let v := ((j : K) + rd) / (h1 : K)
  some (u, v, st)

/-- The sample loop `for (int s = 0; s < samples_per_pixel; ++s)` of `main` for the
pixel `(i, j)`, with `n` iterations left: the accumulated `pixel_color` and the
state. -/
def main_samples (mats : M → material K M σ) (random_double : σ → K × σ)
    (max_depth image_width image_height : Int) (cam : camera K σ)
    (world : hittable K M σ) (background : vec3 K) (i j : Int) :
    Nat → vec3 K → σ → Option (vec3 K × σ)
  | 0, pixel_color, st => some (pixel_color, st)
  | n + 1, pixel_color, st => do
    let (rd, st) := random_double st
    let w1 ← int_sub image_width 1
    let u := ((i : K) + rd) / (w1 : K)
    let (rd, st) := random_double st
    let h1 ← int_sub image_height 1
    let v := ((j : K) + rd) / (h1 : K)
    let (r, st) := cam.get_ray u v st
    let res := ray_color mats r background world max_depth st
    main_samples mats random_double max_depth image_width image_height cam world
      background i j n (pixel_color + res.value) res.state

end Main

/-! ## Reading a mesh file up to a point -/

section Scan

variable {K M : Type} [LinearOrderedField K]

end Scan

/-! ## A small scene, for evaluation -/

section SampleScene

variable {K : Type} [LinearOrderedField K]

/-- A generator that always yields `1/2` and counts its draws. -/
def sample_random_double (s : Nat) : K × Nat := (1 / 2, s + 1)

/-- A pinhole camera at the origin looking along `-z`. -/
def sample_camera : camera K Nat :=
  ⟨fun u v s => (⟨⟨0, 0, 0⟩, ⟨u - 1 / 2, v - 1 / 2, -1⟩, 0⟩, s)⟩

/-- Two materials: `true` is a lamp (emits `(4,4,4)`, absorbs); `false` is a grey
surface (emits nothing, halves the light and scatters along the normal). -/
def sample_mats : Bool → material K Bool Nat
  | true => ⟨fun _ _ _ => ⟨4, 4, 4⟩, fun _ _ s => (none, s)⟩
  | false => ⟨fun _ _ _ => ⟨0, 0, 0⟩,
      fun r rec s => (some (⟨1 / 2, 1 / 2, 1 / 2⟩, ⟨rec.p, rec.normal, r.tm⟩), s + 1)⟩

/-- A scene with a grey floor `y = -1` and a lamp ceiling `y = 1`; a horizontal ray
hits nothing. -/
def sample_world : hittable K Bool Nat :=
  ⟨fun r t_min _ s =>
    if r.dir.y < 0 ∧ t_min < (-1 - r.orig.y) / r.dir.y then
      (some ⟨r.orig + ((-1 - r.orig.y) / r.dir.y) * r.dir, ⟨0, 1, 0⟩, false,
        (-1 - r.orig.y) / r.dir.y, 0, 0, true⟩, s)
    else if 0 < r.dir.y ∧ t_min < (1 - r.orig.y) / r.dir.y then
      (some ⟨r.orig + ((1 - r.orig.y) / r.dir.y) * r.dir, ⟨0, -1, 0⟩, true,
        (1 - r.orig.y) / r.dir.y, 0, 0, true⟩, s)
    else (none, s)⟩

/-- A horizontal ray from the origin: it hits nothing in the sample scene. -/
def sample_ray_level : ray K := ⟨⟨0, 0, 0⟩, ⟨1, 0, 0⟩, 0⟩

/-- A ray from the origin up to the lamp. -/
def sample_ray_up : ray K := ⟨⟨0, 0, 0⟩, ⟨0, 1, 0⟩, 0⟩

/-- A ray from the origin down to the floor. -/
def sample_ray_down : ray K := ⟨⟨0, 0, 0⟩, ⟨0, -1, 0⟩, 0⟩

/-- The ray scattered by the floor where `sample_ray_down` hits it. -/
def sample_ray_bounce : ray K := ⟨⟨0, -1, 0⟩, ⟨0, 1, 0⟩, 0⟩

/-- A background colour. -/
def sample_background : vec3 K := ⟨7, 8, 9⟩

end SampleScene

/-! ## Theorems -/

section VectorTheorems

variable {K : Type} [LinearOrderedField K]

/-- The zero vector, unfolded. -/
theorem vec3.zero_def : (0 : vec3 K) = ⟨0, 0, 0⟩ := rfl

/-- Vector addition, unfolded. -/
theorem vec3.add_def (u v : vec3 K) : u + v = ⟨u.x + v.x, u.y + v.y, u.z + v.z⟩ := rfl

/-- Vector subtraction, unfolded. -/
theorem vec3.sub_def (u v : vec3 K) : u - v = ⟨u.x - v.x, u.y - v.y, u.z - v.z⟩ := rfl

/-- The component-wise product, unfolded. -/
theorem vec3.mul_def (u v : vec3 K) : u * v = ⟨u.x * v.x, u.y * v.y, u.z * v.z⟩ := rfl

/-- Scaling by a number, unfolded. -/
theorem vec3.smul_def (t : K) (v : vec3 K) : t * v = ⟨t * v.x, t * v.y, t * v.z⟩ := rfl

/-- Division by a number, unfolded. -/
theorem vec3.div_def (v : vec3 K) (t : K) :
    v / t = ⟨1 / t * v.x, 1 / t * v.y, 1 / t * v.z⟩ := rfl

end VectorTheorems

/-- A representable result is defined. -/
theorem int_result_eq {x : Int} (h1 : INT_MIN ≤ x) (h2 : x ≤ INT_MAX) :
    int_result x = some x := by
  simp [int_result, h1, h2]

/-- A defined result is the mathematical one and is representable. -/
theorem int_result_some {x y : Int} (h : int_result x = some y) :
    y = x ∧ INT_MIN ≤ x ∧ x ≤ INT_MAX := by
  unfold int_result at h
  split at h
  · rename_i hb
    simp at h
    exact ⟨h.symm, hb.1, hb.2⟩
  · simp at h

/-- When `num_threads` tiles of width `tile_width` fit in an `int`, the spawn loop
overflows nowhere and yields the launches of `tiles_from`. -/
theorem render_multithreaded_loop_eq (width height num_threads tile_width : Int)
    (h0 : 0 ≤ tile_width) (hn : 1 ≤ num_threads)
    (hmax : num_threads * tile_width ≤ INT_MAX) (hn2 : num_threads ≤ INT_MAX) :
    ∀ (k : Nat) (i : Int), 0 ≤ i → i + k ≤ num_threads →
      render_multithreaded_loop width height num_threads tile_width k i =
        some (tiles_from width height num_threads tile_width k i) := by
  intro k
  induction k with
  | zero => intro i _ _; rfl
  | succ k ih =>
    intro i hi hik
    have hik' : i + 1 + (k : Int) ≤ num_threads := by push_cast at hik; omega
    have hi1 : i + 1 ≤ num_threads := by omega
    have hb1 : i * tile_width ≤ num_threads * tile_width :=
      mul_le_mul_of_nonneg_right (by omega) h0
    have hb2 : (i + 1) * tile_width ≤ num_threads * tile_width :=
      mul_le_mul_of_nonneg_right hi1 h0
    have hp1 : 0 ≤ i * tile_width := mul_nonneg hi h0
    have hp2 : 0 ≤ (i + 1) * tile_width := mul_nonneg (by omega) h0
    have e1 : int_mul i tile_width = some (i * tile_width) :=
      int_result_eq (by unfold INT_MIN; omega) (by omega)
    have e2 : int_add i 1 = some (i + 1) :=
      int_result_eq (by unfold INT_MIN; omega) (by omega)
    have e3 : int_mul (i + 1) tile_width = some ((i + 1) * tile_width) :=
      int_result_eq (by unfold INT_MIN; omega) (by omega)
    have e4 : int_sub num_threads 1 = some (num_threads - 1) :=
      int_result_eq (by unfold INT_MIN; omega) (by omega)
    simp [render_multithreaded_loop, tiles_from, tile_at, e1, e2, e3, e4,
      ih (i + 1) (by omega) hik']

/-- The number of launches. -/
theorem tiles_from_length (width height num_threads tile_width : Int) :
    ∀ (k : Nat) (i : Int),
      (tiles_from width height num_threads tile_width k i).length = k := by
  intro k
  induction k with
  | zero => intro i; rfl
  | succ k ih => intro i; simp [tiles_from, ih]

/-- Launch number `m` of `tiles_from k i` is tile `i + m`. -/
theorem tiles_from_getElem? (width height num_threads tile_width : Int) :
    ∀ (k : Nat) (i : Int) (m : Nat), m < k →
      (tiles_from width height num_threads tile_width k i)[m]? =
        some (tile_at width height num_threads tile_width (i + m)) := by
  intro k
  induction k with
  | zero => intro i m hm; omega
  | succ k ih =>
    intro i m hm
    cases m with
    | zero => simp [tiles_from]
    | succ m =>
      simp only [tiles_from, List.getElem?_cons_succ]
      rw [ih (i + 1) m (by omega)]
      congr 2
      push_cast
      ring

/-- Every launch of `tiles_from k i` is a tile `j` with `i ≤ j < i + k`. -/
theorem mem_tiles_from (width height num_threads tile_width : Int) :
    ∀ (k : Nat) (i : Int) (t : TileArgs),
      t ∈ tiles_from width height num_threads tile_width k i →
        ∃ j : Int, i ≤ j ∧ j < i + k ∧
          t = tile_at width height num_threads tile_width j := by
  intro k
  induction k with
  | zero => intro i t ht; simp [tiles_from] at ht
  | succ k ih =>
    intro i t ht
    simp only [tiles_from, List.mem_cons] at ht
    rcases ht with rfl | ht
    · exact ⟨i, le_refl _, by push_cast; omega, rfl⟩
    · obtain ⟨j, h1, h2, h3⟩ := ih (i + 1) t ht
      exact ⟨j, by omega, by push_cast; omega, h3⟩

/-- Width of a tile when `1 ≤ num_threads ≤ width`: at least one column, and
`num_threads` of them fit in the image. -/
theorem tile_width_bounds (width num_threads : Int) (h1 : 1 ≤ num_threads)
    (h2 : num_threads ≤ width) :
    Int.tdiv width num_threads = width / num_threads ∧ 1 ≤ width / num_threads ∧
      num_threads * (width / num_threads) ≤ width := by
  refine ⟨Int.tdiv_eq_ediv (by omega) (by omega), ?_, ?_⟩
  · rw [Int.le_ediv_iff_mul_le (by omega)]
    omega
  · exact Int.mul_ediv_self_le (by omega)

/-- Inside the image, tile `j` holds column `c` exactly when `j` is the column's
quotient by the tile width, capped at the last tile. -/
theorem tile_at_has_column_iff (width height num_threads c j : Int)
    (h1 : 1 ≤ num_threads) (h2 : num_threads ≤ width)
    (hc : c < width) (hj0 : 0 ≤ j) (hj : j < num_threads) :
    (tile_at width height num_threads (width / num_threads) j).has_column c = true ↔
      j = min (c / (width / num_threads)) (num_threads - 1) := by
  obtain ⟨-, htw, hfit⟩ := tile_width_bounds width num_threads h1 h2
  have hpos : 0 < width / num_threads := by omega
  have key1 : ∀ a : Int, a * (width / num_threads) ≤ c ↔ a ≤ c / (width / num_threads) :=
    fun a => (Int.le_ediv_iff_mul_le hpos).symm
  have key2 : ∀ a : Int, c < a * (width / num_threads) ↔ c / (width / num_threads) < a :=
    fun a => (Int.ediv_lt_iff_lt_mul hpos).symm
  simp only [TileArgs.has_column, tile_at, decide_eq_true_eq]
  by_cases hlast : j = num_threads - 1
  · subst hlast
    simp only [if_true, key1]
    constructor
    · rintro ⟨h, -⟩
      omega
    · intro h
      exact ⟨by omega, hc⟩
  · rw [if_neg hlast, key1, key2]
    omega

/-- Among the launches `i, ..., i+k-1` the tiles holding column `c` are counted: one
if the column's tile index falls in that range, none otherwise. -/
theorem tiles_from_count (width height num_threads c : Int)
    (h1 : 1 ≤ num_threads) (h2 : num_threads ≤ width) (hc : c < width) :
    ∀ (k : Nat) (i : Int), 0 ≤ i → i + k ≤ num_threads →
      ((tiles_from width height num_threads (width / num_threads) k i).filter
          (fun t => t.has_column c)).length =
        if i ≤ min (c / (width / num_threads)) (num_threads - 1) ∧
            min (c / (width / num_threads)) (num_threads - 1) < i + k then 1 else 0 := by
  intro k
  induction k with
  | zero =>
    intro i _ _
    have : ¬ (i ≤ min (c / (width / num_threads)) (num_threads - 1) ∧
        min (c / (width / num_threads)) (num_threads - 1) < i + ((0 : Nat) : Int)) := by
      push_cast
      omega
    rw [if_neg this]
    rfl
  | succ k ih =>
    intro i hi hik
    push_cast at hik
    have hiff := tile_at_has_column_iff width height num_threads c i h1 h2 hc hi (by omega)
    have hrest := ih (i + 1) (by omega) (by omega)
    simp only [tiles_from, List.filter_cons]
    by_cases hhead : (tile_at width height num_threads (width / num_threads) i).has_column c
        = true
    · rw [if_pos hhead, List.length_cons, hrest]
      have hi_eq := hiff.mp hhead
      rw [if_neg (by omega), if_pos (by push_cast; omega)]
    · rw [if_neg hhead, hrest]
      have hne : ¬ i = min (c / (width / num_threads)) (num_threads - 1) :=
        fun h => hhead (hiff.mpr h)
      by_cases hin : i + 1 ≤ min (c / (width / num_threads)) (num_threads - 1) ∧
          min (c / (width / num_threads)) (num_threads - 1) < i + 1 + (k : Int)
      · rw [if_pos hin, if_pos (by push_cast; omega)]
      · rw [if_neg hin, if_neg (by push_cast; omega)]

/-- Under `1 ≤ num_threads ≤ width` no `int` operation of `render_multithreaded`
overflows: the launches are those of `tiles_from`. -/
theorem render_multithreaded_eq (width height num_threads : Int)
    (hw : width ≤ INT_MAX) (h1 : 1 ≤ num_threads) (h2 : num_threads ≤ width) :
    render_multithreaded width height num_threads =
      some (tiles_from width height num_threads (width / num_threads)
        num_threads.toNat 0) := by
  obtain ⟨ht, htw, hfit⟩ := tile_width_bounds width num_threads h1 h2
  have hdiv : int_div width num_threads = some (width / num_threads) := by
    unfold int_div
    rw [if_neg (by omega), ht]
    exact int_result_eq (by unfold INT_MIN; omega) (by nlinarith)
  have hloop := render_multithreaded_loop_eq width height num_threads (width / num_threads)
    (by omega) h1 (by omega) (by omega) num_threads.toNat 0 (le_refl _)
    (by rw [Int.toNat_of_nonneg (by omega)]; omega)
  simp [render_multithreaded, hdiv, hloop]

/-- Tile `k` of the launch list is `tile_at k`. -/
theorem render_multithreaded_getElem? (width height num_threads : Int)
    (hw : width ≤ INT_MAX) (h1 : 1 ≤ num_threads) (h2 : num_threads ≤ width)
    (tiles : List TileArgs)
    (htiles : render_multithreaded width height num_threads = some tiles)
    (k : Nat) (t : TileArgs) (hk : tiles[k]? = some t) :
    (k : Int) < num_threads ∧
      t = tile_at width height num_threads (width / num_threads) k := by
  rw [render_multithreaded_eq width height num_threads hw h1 h2] at htiles
  simp only [Option.some.injEq] at htiles
  subst htiles
  have hklt : k < num_threads.toNat := by
    have := (List.getElem?_eq_some.mp hk).1
    rwa [tiles_from_length] at this
  rw [tiles_from_getElem? _ _ _ _ _ _ _ hklt] at hk
  simp only [zero_add, Option.some.injEq] at hk
  exact ⟨by omega, hk.symm⟩

/-- No tile leaves the image. -/
theorem tile_at_column_range (width height num_threads c j : Int)
    (h1 : 1 ≤ num_threads) (h2 : num_threads ≤ width) (hj0 : 0 ≤ j)
    (hj : j < num_threads)
    (hcol : (tile_at width height num_threads (width / num_threads) j).has_column c
      = true) :
    0 ≤ c ∧ c < width := by
  obtain ⟨-, htw, hfit⟩ := tile_width_bounds width num_threads h1 h2
  simp only [TileArgs.has_column, tile_at, decide_eq_true_eq] at hcol
  have hx0 : 0 ≤ j * (width / num_threads) := mul_nonneg hj0 (by omega)
  refine ⟨by omega, ?_⟩
  by_cases hlast : j = num_threads - 1
  · rw [if_pos hlast] at hcol
    exact hcol.2
  · rw [if_neg hlast] at hcol
    have : (j + 1) * (width / num_threads) ≤ num_threads * (width / num_threads) :=
      mul_le_mul_of_nonneg_right (by omega) (by omega)
    omega

/-- C1: for `1 ≤ num_threads ≤ width` (`width` an `int`), `render_multithreaded` launches
`num_threads` tiles, tile `k` with `x0 = k * (width / num_threads)` and
`x1 = (k + 1) * (width / num_threads)`, the last one with `x1 = width`; every column of
`[0, width)` lies in exactly one tile, no tile leaves `[0, width)`, and the last tile's
upper bound is `width`. -/
theorem render_multithreaded_partition (width height num_threads : Int)
    (hw : width ≤ INT_MAX) (h1 : 1 ≤ num_threads) (h2 : num_threads ≤ width) :
    ∃ tiles : List TileArgs,
      render_multithreaded width height num_threads = some tiles ∧
      (tiles.length : Int) = num_threads ∧
      (∀ (k : Nat) (t : TileArgs), tiles[k]? = some t →
        t.x0 = k * (width / num_threads) ∧
        t.x1 = if (k : Int) = num_threads - 1 then width
               else (k + 1) * (width / num_threads)) ∧
      (∀ c : Int, 0 ≤ c → c < width →
        (tiles.filter (fun t => t.has_column c)).length = 1) ∧
      (∀ t ∈ tiles, ∀ c : Int, t.has_column c = true → 0 ≤ c ∧ c < width) ∧
      (∀ t : TileArgs, tiles.getLast? = some t → t.x1 = width) := by
  obtain ⟨ht, htw, hfit⟩ := tile_width_bounds width num_threads h1 h2
  have heq := render_multithreaded_eq width height num_threads hw h1 h2
  have hlen := tiles_from_length width height num_threads (width / num_threads)
    num_threads.toNat 0
  have hnat : ((num_threads.toNat : Nat) : Int) = num_threads :=
    Int.toNat_of_nonneg (by omega)
  refine ⟨_, heq, ?_, ?_, ?_, ?_, ?_⟩
  · rw [hlen, hnat]
  · intro k t hk
    obtain ⟨-, rfl⟩ := render_multithreaded_getElem? width height num_threads hw h1 h2
      _ heq k t hk
    simp [tile_at]
  · intro c hc0 hc
    rw [tiles_from_count width height num_threads c h1 h2 hc num_threads.toNat 0
      (le_refl _) (by omega)]
    have hq : 0 ≤ c / (width / num_threads) := Int.ediv_nonneg hc0 (by omega)
    rw [if_pos (by omega)]
  · intro t ht c hcol
    obtain ⟨j, hj0, hj, rfl⟩ := mem_tiles_from _ _ _ _ _ _ _ ht
    exact tile_at_column_range width height num_threads c j h1 h2 hj0 (by omega) hcol
  · intro t ht
    rw [List.getLast?_eq_getElem?, hlen] at ht
    obtain ⟨hk, rfl⟩ := render_multithreaded_getElem? width height num_threads hw h1 h2
      _ heq _ t ht
    have : ((num_threads.toNat - 1 : Nat) : Int) = num_threads - 1 := by omega
    simp [tile_at, this]

/-- Witness of C1: a 10-column image on 3 threads. -/
theorem render_multithreaded_partition_witness :
    ∃ tiles : List TileArgs,
      render_multithreaded 10 4 3 = some tiles ∧
      (tiles.length : Int) = 3 ∧
      (∀ (k : Nat) (t : TileArgs), tiles[k]? = some t →
        t.x0 = k * (10 / 3) ∧
        t.x1 = if (k : Int) = 3 - 1 then (10 : Int) else ((k : Int) + 1) * (10 / 3)) ∧
      (∀ c : Int, 0 ≤ c → c < 10 →
        (tiles.filter (fun t => t.has_column c)).length = 1) ∧
      (∀ t ∈ tiles, ∀ c : Int, t.has_column c = true → 0 ≤ c ∧ c < 10) ∧
      (∀ t : TileArgs, tiles.getLast? = some t → t.x1 = 10) :=
  render_multithreaded_partition 10 4 3 (by decide) (by decide) (by decide)

/-- The launches of a 10-column, 4-row image on 3 threads, evaluated. -/
theorem render_multithreaded_example :
    render_multithreaded 10 4 3 =
      some [⟨0, 0, 0, 3, 4⟩, ⟨1, 3, 0, 6, 4⟩, ⟨2, 6, 0, 10, 4⟩] := by
  decide

/-! ### Integrator -/

section IntegratorTheorems

variable {K M σ : Type} [LinearOrderedField K]

/-- The branch `depth <= 0` of `ray_colora`. -/
theorem ray_colora_le_zero (mats : M → material K M σ) (r : ray K) (background : vec3 K)
    (world : hittable K M σ) (depth : Int) (s : σ) (hd : depth ≤ 0) :
    ray_colora mats r background world depth s = ⟨⟨0, 0, 0⟩, s, []⟩ := by
  rw [ray_colora, if_pos hd]

/-- The branch `depth <= 0` of `ray_color`. -/
theorem ray_color_le_zero (mats : M → material K M σ) (r : ray K) (background : vec3 K)
    (world : hittable K M σ) (depth : Int) (s : σ) (hd : depth ≤ 0) :
    ray_color mats r background world depth s = ⟨⟨0, 0, 0⟩, s, []⟩ := by
  rw [ray_color, if_pos hd]

/-- The branch of `ray_colora` where the scene reports no hit. -/
theorem ray_colora_miss (mats : M → material K M σ) (r : ray K) (background : vec3 K)
    (world : hittable K M σ) (depth : Int) (s s1 : σ) (hd : 0 < depth)
    (hmiss : world.hit r 0.001 ⊤ s = (none, s1)) :
    ray_colora mats r background world depth s = ⟨background, s1, [r]⟩ := by
  rw [ray_colora, if_neg (not_le.mpr hd)]
  simp only [hmiss]

/-- The branch of `ray_color` where the scene reports no hit. -/
theorem ray_color_miss (mats : M → material K M σ) (r : ray K) (background : vec3 K)
    (world : hittable K M σ) (depth : Int) (s s1 : σ) (hd : 0 < depth)
    (hmiss : world.hit r 0.001 ⊤ s = (none, s1)) :
    ray_color mats r background world depth s = ⟨background, s1, [r]⟩ := by
  rw [ray_color, if_neg (not_le.mpr hd)]
  simp only [hmiss]

/-- The branch of `ray_colora` where the material absorbs the ray. -/
theorem ray_colora_absorbed (mats : M → material K M σ) (r : ray K) (background : vec3 K)
    (world : hittable K M σ) (depth : Int) (s s1 s2 : σ) (rec : hit_record K M)
    (hd : 0 < depth) (hhit : world.hit r 0.001 ⊤ s = (some rec, s1))
    (habs : (mats rec.mat_ptr).scatter r rec s1 = (none, s2)) :
    ray_colora mats r background world depth s =
      ⟨(mats rec.mat_ptr).emitted rec.u rec.v rec.p, s2, [r]⟩ := by
  rw [ray_colora, if_neg (not_le.mpr hd)]
  simp only [hhit, habs]

/-- The branch of `ray_color` where the material absorbs the ray. -/
theorem ray_color_absorbed (mats : M → material K M σ) (r : ray K) (background : vec3 K)
    (world : hittable K M σ) (depth : Int) (s s1 s2 : σ) (rec : hit_record K M)
    (hd : 0 < depth) (hhit : world.hit r 0.001 ⊤ s = (some rec, s1))
    (habs : (mats rec.mat_ptr).scatter r rec s1 = (none, s2)) :
    ray_color mats r background world depth s =
      ⟨(mats rec.mat_ptr).emitted rec.u rec.v rec.p, s2, [r]⟩ := by
  rw [ray_color, if_neg (not_le.mpr hd)]
  simp only [hhit, habs]

/-- The recursive branch of `ray_colora`. -/
theorem ray_colora_scattered (mats : M → material K M σ) (r : ray K) (background : vec3 K)
    (world : hittable K M σ) (depth : Int) (s s1 s2 : σ) (rec : hit_record K M)
    (attenuation : vec3 K) (scattered : ray K)
    (hd : 0 < depth) (hhit : world.hit r 0.001 ⊤ s = (some rec, s1))
    (hsc : (mats rec.mat_ptr).scatter r rec s1 = (some (attenuation, scattered), s2)) :
    ray_colora mats r background world depth s =
      ⟨(mats rec.mat_ptr).emitted rec.u rec.v rec.p +
          attenuation * (ray_colora mats scattered background world (depth - 1) s2).value,
        (ray_colora mats scattered background world (depth - 1) s2).state,
        r :: (ray_colora mats scattered background world (depth - 1) s2).queries⟩ := by
  rw [ray_colora, if_neg (not_le.mpr hd)]
  simp only [hhit, hsc]

/-- The recursive branch of `ray_color`. -/
theorem ray_color_scattered (mats : M → material K M σ) (r : ray K) (background : vec3 K)
    (world : hittable K M σ) (depth : Int) (s s1 s2 : σ) (rec : hit_record K M)
    (attenuation : vec3 K) (scattered : ray K)
    (hd : 0 < depth) (hhit : world.hit r 0.001 ⊤ s = (some rec, s1))
    (hsc : (mats rec.mat_ptr).scatter r rec s1 = (some (attenuation, scattered), s2)) :
    ray_color mats r background world depth s =
      ⟨(mats rec.mat_ptr).emitted rec.u rec.v rec.p +
          attenuation * (ray_color mats scattered background world (depth - 1) s2).value,
        (ray_color mats scattered background world (depth - 1) s2).state,
        r :: (ray_color mats scattered background world (depth - 1) s2).queries⟩ := by
  rw [ray_color, if_neg (not_le.mpr hd)]
  simp only [hhit, hsc]

/-- The number of scene queries of `ray_colora` is bounded by the depth budget. -/
theorem ray_colora_queries_le (mats : M → material K M σ) (background : vec3 K)
    (world : hittable K M σ) :
    ∀ (n : Nat) (depth : Int) (r : ray K) (s : σ), depth.toNat = n →
      (ray_colora mats r background world depth s).queries.length ≤ n := by
  intro n
  induction n with
  | zero =>
    intro depth r s hn
    rw [ray_colora_le_zero mats r background world depth s (by omega)]
    simp
  | succ n ih =>
    intro depth r s hn
    have hd : 0 < depth := by omega
    rcases hhit : world.hit r 0.001 ⊤ s with ⟨_ | rec, s1⟩
    · rw [ray_colora_miss mats r background world depth s s1 hd hhit]
      simp
    · rcases hsc : (mats rec.mat_ptr).scatter r rec s1 with ⟨_ | ⟨attenuation, scattered⟩, s2⟩
      · rw [ray_colora_absorbed mats r background world depth s s1 s2 rec hd hhit hsc]
        simp
      · rw [ray_colora_scattered mats r background world depth s s1 s2 rec attenuation
          scattered hd hhit hsc]
        have := ih (depth - 1) scattered s2 (by omega)
        simpa using this

/-- The two integrators are the same function. -/
theorem ray_color_eq_ray_colora (mats : M → material K M σ) (background : vec3 K)
    (world : hittable K M σ) :
    ∀ (n : Nat) (depth : Int) (r : ray K) (s : σ), depth.toNat = n →
      ray_color mats r background world depth s =
        ray_colora mats r background world depth s := by
  intro n
  induction n with
  | zero =>
    intro depth r s hn
    rw [ray_colora_le_zero mats r background world depth s (by omega),
      ray_color_le_zero mats r background world depth s (by omega)]
  | succ n ih =>
    intro depth r s hn
    have hd : 0 < depth := by omega
    rcases hhit : world.hit r 0.001 ⊤ s with ⟨_ | rec, s1⟩
    · rw [ray_colora_miss mats r background world depth s s1 hd hhit,
        ray_color_miss mats r background world depth s s1 hd hhit]
    · rcases hsc : (mats rec.mat_ptr).scatter r rec s1 with ⟨_ | ⟨attenuation, scattered⟩, s2⟩
      · rw [ray_colora_absorbed mats r background world depth s s1 s2 rec hd hhit hsc,
          ray_color_absorbed mats r background world depth s s1 s2 rec hd hhit hsc]
      · rw [ray_colora_scattered mats r background world depth s s1 s2 rec attenuation
            scattered hd hhit hsc,
          ray_color_scattered mats r background world depth s s1 s2 rec attenuation
            scattered hd hhit hsc,
          ih (depth - 1) scattered s2 (by omega)]

end IntegratorTheorems

/-! ### Pixel quantiser -/

section ClampTheorems

variable {K : Type} [LinearOrderedField K]

/-- A clamped value lies between the bounds. -/
theorem clamp_bounds (x lo hi : K) (h : lo ≤ hi) :
    lo ≤ clamp x lo hi ∧ clamp x lo hi ≤ hi := by
  unfold clamp
  split_ifs with h1 h2
  · exact ⟨le_refl _, h⟩
  · exact ⟨h, le_refl _⟩
  · exact ⟨not_lt.mp h1, not_lt.mp h2⟩

/-- Clamping is monotone. -/
theorem clamp_mono (x y lo hi : K) (h : lo ≤ hi) (hxy : x ≤ y) :
    clamp x lo hi ≤ clamp y lo hi := by
  unfold clamp
  split_ifs <;> linarith

/-- The literal `0.0`. -/
theorem literal_zero : (0.0 : K) = 0 := by norm_num

/-- The literal `0.999`. -/
theorem literal_999 : (0.999 : K) = 999 / 1000 := by norm_num

/-- The bounds of the clamp used by `write_color`. -/
theorem clamp_literal_bounds (r : K) :
    0 ≤ clamp r 0.0 0.999 ∧ clamp r 0.0 0.999 ≤ 999 / 1000 := by
  have h := clamp_bounds r (0.0 : K) 0.999 (by norm_num)
  rw [literal_zero, literal_999] at h ⊢
  exact h

end ClampTheorems

section QuantiserTheorems

variable {K : Type} [LinearOrderedField K] [FloorRing K]

/-- Truncation is monotone on the non-negative numbers. -/
theorem trunc_mono_nonneg (x y : K) (hx : 0 ≤ x) (hxy : x ≤ y) : trunc x ≤ trunc y := by
  unfold trunc
  rw [if_pos hx, if_pos (le_trans hx hxy)]
  exact Int.floor_mono hxy

/-- The value handed to the cast is in `[0, 255.744]`, so its truncation is a byte. -/
theorem trunc_scaled_clamp (r : K) :
    0 ≤ trunc (256 * clamp r 0.0 0.999) ∧ trunc (256 * clamp r 0.0 0.999) ≤ 255 := by
  obtain ⟨h0, h1⟩ := clamp_literal_bounds r
  have hnn : (0 : K) ≤ 256 * clamp r 0.0 0.999 := by positivity
  unfold trunc
  rw [if_pos hnn]
  refine ⟨Int.floor_nonneg.mpr hnn, ?_⟩
  have hlt : 256 * clamp r 0.0 0.999 < ((256 : Int) : K) := by
    push_cast
    linarith
  have := Int.floor_lt.mpr hlt
  omega

/-- The cast in `write_color` is always defined. -/
theorem static_cast_uchar_clamp (r : K) :
    static_cast_uchar (256 * clamp r 0.0 0.999) =
      some (trunc (256 * clamp r 0.0 0.999)).toNat := by
  obtain ⟨h0, h1⟩ := trunc_scaled_clamp r
  simp [static_cast_uchar, h0, h1]

/-- A gamma-corrected value of at least `0.999` is stored as 255. -/
theorem trunc_scaled_clamp_high (r : K) (h : 0.999 ≤ r) :
    trunc (256 * clamp r 0.0 0.999) = 255 := by
  rw [literal_999] at h
  have hc : clamp r 0.0 0.999 = 999 / 1000 := by
    rw [literal_zero, literal_999]
    unfold clamp
    have h1 : ¬ r < 0 := by
      have : (0 : K) < 999 / 1000 := by norm_num
      exact not_lt.mpr (by linarith)
    rw [if_neg h1]
    split_ifs with h2
    · rfl
    · exact le_antisymm (not_lt.mp h2) h
  rw [hc]
  unfold trunc
  rw [if_pos (by norm_num), Int.floor_eq_iff]
  constructor <;> norm_num

/-- A gamma-corrected value of at most `0` is stored as 0. -/
theorem trunc_scaled_clamp_low (r : K) (h : r ≤ 0) :
    trunc (256 * clamp r 0.0 0.999) = 0 := by
  have hc : clamp r 0.0 0.999 = 0 := by
    rw [literal_zero, literal_999]
    unfold clamp
    split_ifs with h1 h2
    · rfl
    · have : (0 : K) < 999 / 1000 := by norm_num
      linarith
    · exact le_antisymm h (not_lt.mp h1)
  rw [hc]
  simp [trunc]

/-- The stores of a defined `write_color` call. -/
theorem write_color_eq_some (sqrt : K → K) (pixel_color : vec3 K)
    (image_width i j samples_per_pixel : Int) (log : List (Int × Nat))
    (h : write_color sqrt pixel_color image_width i j samples_per_pixel = some log) :
    log = [(3 * (j * image_width + i),
              (quantize_channel sqrt pixel_color.x samples_per_pixel).toNat),
           (3 * (j * image_width + i) + 1,
              (quantize_channel sqrt pixel_color.y samples_per_pixel).toNat),
           (3 * (j * image_width + i) + 2,
              (quantize_channel sqrt pixel_color.z samples_per_pixel).toNat)] := by
  have hscale : ∀ c : K, (1.0 : K) / (samples_per_pixel : K) * c
      = c / (samples_per_pixel : K) := by
    intro c
    norm_num
    ring
  simp only [write_color, Option.bind_eq_bind, Option.bind_eq_some,
    static_cast_uchar_clamp, hscale] at h
  obtain ⟨jw, h1, jwi, h2, index, h3, b0, hb0, index1, h4, b1, hb1, index2, h5, b2, hb2, hlog⟩
    := h
  obtain ⟨rfl, -, -⟩ := int_result_some h1
  obtain ⟨rfl, -, -⟩ := int_result_some h2
  obtain ⟨rfl, -, -⟩ := int_result_some h3
  obtain ⟨rfl, -, -⟩ := int_result_some h4
  obtain ⟨rfl, -, -⟩ := int_result_some h5
  simp only [Option.some.injEq] at hb0 hb1 hb2 hlog
  subst hb0 hb1 hb2
  rw [← hlog]
  rfl

end QuantiserTheorems

/-! ### Stores of one tile -/

section TileTheorems

variable {K M σ : Type} [LinearOrderedField K] [FloorRing K]

/-- The offsets stored to by the column loop are those of its pixels, in order. -/
theorem render_tile_row_offsets (mats : M → material K M σ) (sqrt : K → K)
    (random_double : σ → K × σ) (max_depth width height samples_per_pixel : Int)
    (cam : camera K σ) (world : hittable K M σ) (background : vec3 K) (j : Int) :
    ∀ (n : Nat) (i : Int) (st st' : σ) (stores : List (Int × Nat)),
      render_tile_row mats sqrt random_double max_depth width height samples_per_pixel
        cam world background j n i st = some (stores, st') →
      stores.map Prod.fst = row_offsets width j n i := by
  intro n
  induction n with
  | zero =>
    intro i st st' stores h
    simp only [render_tile_row, Option.some.injEq, Prod.mk.injEq] at h
    rw [← h.1]
    rfl
  | succ n ih =>
    intro i st st' stores h
    simp only [render_tile_row, Option.bind_eq_bind, Option.bind_eq_some, Prod.exists,
      Option.some.injEq, Prod.mk.injEq] at h
    obtain ⟨pixel_color, st1, -, log, hlog, rest, st2, hrest, hstores, -⟩ := h
    have hw := write_color_eq_some sqrt pixel_color width i j samples_per_pixel log hlog
    have hr := ih (i + 1) st1 st2 rest hrest
    rw [← hstores, List.map_append, hr, hw]
    rfl

/-- The offsets stored to by the row loop are those of its pixels, in order. -/
theorem render_tile_rows_offsets (mats : M → material K M σ) (sqrt : K → K)
    (random_double : σ → K × σ) (x0 x1 max_depth width height samples_per_pixel : Int)
    (cam : camera K σ) (world : hittable K M σ) (background : vec3 K) :
    ∀ (n : Nat) (j : Int) (st st' : σ) (stores : List (Int × Nat)),
      render_tile_rows mats sqrt random_double x0 x1 max_depth width height
        samples_per_pixel cam world background n j st = some (stores, st') →
      stores.map Prod.fst = rows_offsets width x0 x1 n j := by
  intro n
  induction n with
  | zero =>
    intro j st st' stores h
    simp only [render_tile_rows, Option.some.injEq, Prod.mk.injEq] at h
    rw [← h.1]
    rfl
  | succ n ih =>
    intro j st st' stores h
    simp only [render_tile_rows, Option.bind_eq_bind, Option.bind_eq_some, Prod.exists,
      Option.some.injEq, Prod.mk.injEq] at h
    obtain ⟨row, st1, hrow, rest, st2, hrest, hstores, -⟩ := h
    have h1 := render_tile_row_offsets mats sqrt random_double max_depth width height
      samples_per_pixel cam world background j _ _ _ _ _ hrow
    have h2 := ih (j + 1) st1 st2 rest hrest
    rw [← hstores, List.map_append, h1, h2]
    rfl

/-- The offsets stored to by a defined run of `render_tile`. -/
theorem render_tile_offsets (mats : M → material K M σ) (sqrt : K → K)
    (random_double : σ → K × σ) (tilenum x0 y0 x1 y1 max_depth width height
    samples_per_pixel : Int) (cam : camera K σ) (world : hittable K M σ)
    (background : vec3 K) (per : Int) (st : σ) (run : tile_run σ)
    (h : render_tile mats sqrt random_double tilenum x0 y0 x1 y1 max_depth width height
      samples_per_pixel cam world background per st = some run) :
    run.stores.map Prod.fst = rows_offsets width x0 x1 (y1 - y0).toNat y0 := by
  simp only [render_tile, Option.bind_eq_bind, Option.bind_eq_some, Prod.exists,
    Option.some.injEq] at h
  obtain ⟨stores, st1, hrows, per1, -, hrun⟩ := h
  rw [← hrun]
  exact render_tile_rows_offsets mats sqrt random_double x0 x1 max_depth width height
    samples_per_pixel cam world background _ _ _ _ _ hrows

end TileTheorems

/-- The offsets of a run of pixels in one row. -/
theorem mem_row_offsets (width j o : Int) :
    ∀ (n : Nat) (i : Int), o ∈ row_offsets width j n i ↔
      ∃ c k : Int, i ≤ c ∧ c < i + n ∧ 0 ≤ k ∧ k < 3 ∧ o = 3 * (j * width + c) + k := by
  intro n
  induction n with
  | zero =>
    intro i
    simp only [row_offsets, List.not_mem_nil, false_iff]
    rintro ⟨c, k, h1, h2, -⟩
    push_cast at h2
    omega
  | succ n ih =>
    intro i
    simp only [row_offsets, List.mem_append, List.mem_cons, List.not_mem_nil, or_false, ih]
    constructor
    · rintro ((h | h | h) | ⟨c, k, h1, h2, h3, h4, h5⟩)
      · exact ⟨i, 0, le_refl _, by push_cast; omega, le_refl _, by omega, by omega⟩
      · exact ⟨i, 1, le_refl _, by push_cast; omega, by omega, by omega, h⟩
      · exact ⟨i, 2, le_refl _, by push_cast; omega, by omega, by omega, h⟩
      · exact ⟨c, k, by omega, by push_cast; omega, h3, h4, h5⟩
    · rintro ⟨c, k, h1, h2, h3, h4, h5⟩
      push_cast at h2
      by_cases hc : c = i
      · subst hc
        left
        have : k = 0 ∨ k = 1 ∨ k = 2 := by omega
        rcases this with rfl | rfl | rfl
        · left; omega
        · right; left; exact h5
        · right; right; exact h5
      · right
        exact ⟨c, k, by omega, by omega, h3, h4, h5⟩

/-- The offsets of a block of pixels. -/
theorem mem_rows_offsets (width x0 x1 o : Int) :
    ∀ (n : Nat) (j : Int), o ∈ rows_offsets width x0 x1 n j ↔
      ∃ r c k : Int, j ≤ r ∧ r < j + n ∧ x0 ≤ c ∧ c < x1 ∧ 0 ≤ k ∧ k < 3 ∧
        o = 3 * (r * width + c) + k := by
  intro n
  induction n with
  | zero =>
    intro j
    simp only [rows_offsets, List.not_mem_nil, false_iff]
    rintro ⟨r, c, k, h1, h2, -⟩
    push_cast at h2
    omega
  | succ n ih =>
    intro j
    simp only [rows_offsets, List.mem_append, ih, mem_row_offsets]
    constructor
    · rintro (⟨c, k, h1, h2, h3, h4, h5⟩ | ⟨r, c, k, h1, h2, h3, h4, h5, h6, h7⟩)
      · exact ⟨j, c, k, le_refl _, by push_cast; omega, h1, by omega, h3, h4, h5⟩
      · exact ⟨r, c, k, by omega, by push_cast; omega, h3, h4, h5, h6, h7⟩
    · rintro ⟨r, c, k, h1, h2, h3, h4, h5, h6, h7⟩
      push_cast at h2
      by_cases hr : r = j
      · subst hr
        left
        exact ⟨c, k, h3, by omega, h5, h6, h7⟩
      · right
        exact ⟨r, c, k, by omega, by omega, h3, h4, h5, h6, h7⟩

/-- Two pixels of an image of width `width` whose byte offsets meet are in the same
column. -/
theorem offset_column_unique (width r c k r' c' k' : Int)
    (hc0 : 0 ≤ c) (hc : c < width) (hc0' : 0 ≤ c') (hc' : c' < width)
    (hk0 : 0 ≤ k) (hk : k < 3) (hk0' : 0 ≤ k') (hk' : k' < 3)
    (h : 3 * (r * width + c) + k = 3 * (r' * width + c') + k') : c = c' := by
  have hpix : r * width + c = r' * width + c' := by omega
  have h1 : (r * width + c) % width = c := by
    rw [add_comm, Int.add_mul_emod_self]
    exact Int.emod_eq_of_lt hc0 hc
  have h2 : (r' * width + c') % width = c' := by
    rw [add_comm, Int.add_mul_emod_self]
    exact Int.emod_eq_of_lt hc0' hc'
  rw [← h1, ← h2, hpix]

/-! ### Definedness of one tile -/

section SamplesDefined

variable {K M σ : Type} [LinearOrderedField K]

/-- The sample loop is defined when `width - 1` and `height - 1` are `int`s. -/
theorem render_tile_samples_defined (mats : M → material K M σ)
    (random_double : σ → K × σ) (max_depth width height : Int) (cam : camera K σ)
    (world : hittable K M σ) (background : vec3 K) (i j : Int)
    (hw0 : INT_MIN < width) (hw : width ≤ INT_MAX)
    (hh0 : INT_MIN < height) (hh : height ≤ INT_MAX) :
    ∀ (n : Nat) (pixel_color : vec3 K) (st : σ),
      ∃ out, render_tile_samples mats random_double max_depth width height cam world
        background i j n pixel_color st = some out := by
  have e1 : int_sub width 1 = some (width - 1) :=
    int_result_eq (by omega) (by omega)
  have e2 : int_sub height 1 = some (height - 1) :=
    int_result_eq (by omega) (by omega)
  intro n
  induction n with
  | zero => intro pixel_color st; exact ⟨_, rfl⟩
  | succ n ih =>
    intro pixel_color st
    simp only [render_tile_samples, e1, e2, Option.bind_eq_bind, Option.some_bind]
    exact ih _ _

end SamplesDefined

section TileDefined

variable {K M σ : Type} [LinearOrderedField K] [FloorRing K]

/-- For a pixel inside an image whose buffer size is an `int`, `write_color` is defined. -/
theorem write_color_defined (sqrt : K → K) (pixel_color : vec3 K)
    (width height i j samples_per_pixel : Int)
    (hi0 : 0 ≤ i) (hi : i < width) (hj0 : 0 ≤ j) (hj : j < height)
    (hsize : 3 * (width * height) ≤ INT_MAX) :
    ∃ log, write_color sqrt pixel_color width i j samples_per_pixel = some log := by
  have hjw : j * width ≤ (height - 1) * width :=
    mul_le_mul_of_nonneg_right (by omega) (by omega)
  have hjw0 : 0 ≤ j * width := mul_nonneg hj0 (by omega)
  have hexp : (height - 1) * width = width * height - width := by ring
  have e1 : int_mul j width = some (j * width) :=
    int_result_eq (by unfold INT_MIN; omega) (by omega)
  have e2 : int_add (j * width) i = some (j * width + i) :=
    int_result_eq (by unfold INT_MIN; omega) (by omega)
  have e3 : int_mul 3 (j * width + i) = some (3 * (j * width + i)) :=
    int_result_eq (by unfold INT_MIN; omega) (by omega)
  have e4 : int_add (3 * (j * width + i)) 1 = some (3 * (j * width + i) + 1) :=
    int_result_eq (by unfold INT_MIN; omega) (by omega)
  have e5 : int_add (3 * (j * width + i)) 2 = some (3 * (j * width + i) + 2) :=
    int_result_eq (by unfold INT_MIN; omega) (by omega)
  simp only [write_color, e1, e2, e3, e4, e5, static_cast_uchar_clamp,
    Option.bind_eq_bind, Option.some_bind]
  exact ⟨_, rfl⟩

/-- The column loop is defined inside such an image. -/
theorem render_tile_row_defined (mats : M → material K M σ) (sqrt : K → K)
    (random_double : σ → K × σ) (max_depth width height samples_per_pixel : Int)
    (cam : camera K σ) (world : hittable K M σ) (background : vec3 K) (j : Int)
    (hw : width ≤ INT_MAX) (hh : height ≤ INT_MAX) (hj0 : 0 ≤ j) (hj : j < height)
    (hsize : 3 * (width * height) ≤ INT_MAX) :
    ∀ (n : Nat) (i : Int) (st : σ), (n ≠ 0 → 0 ≤ i ∧ i + n ≤ width) →
      ∃ out, render_tile_row mats sqrt random_double max_depth width height
        samples_per_pixel cam world background j n i st = some out := by
  intro n
  induction n with
  | zero => intro i st _; exact ⟨_, rfl⟩
  | succ n ih =>
    intro i st hbound
    obtain ⟨hi0, hin⟩ := hbound (Nat.succ_ne_zero n)
    push_cast at hin
    obtain ⟨⟨pixel_color, st1⟩, hs⟩ := render_tile_samples_defined mats random_double
      max_depth width height cam world background i j (by unfold INT_MIN; omega) hw
      (by unfold INT_MIN; omega) hh samples_per_pixel.toNat ⟨0, 0, 0⟩ st
    obtain ⟨log, hlog⟩ := write_color_defined sqrt pixel_color width height i j
      samples_per_pixel hi0 (by omega) hj0 hj hsize
    obtain ⟨⟨rest, st2⟩, hrest⟩ := ih (i + 1) st1 (fun _ => ⟨by omega, by omega⟩)
    simp only [render_tile_row, hs, hlog, hrest, Option.bind_eq_bind, Option.some_bind]
    exact ⟨_, rfl⟩

/-- The row loop is defined inside such an image. -/
theorem render_tile_rows_defined (mats : M → material K M σ) (sqrt : K → K)
    (random_double : σ → K × σ) (x0 x1 max_depth width height samples_per_pixel : Int)
    (cam : camera K σ) (world : hittable K M σ) (background : vec3 K)
    (hw : width ≤ INT_MAX) (hh : height ≤ INT_MAX) (hx0 : 0 ≤ x0) (hx1 : x1 ≤ width)
    (hsize : 3 * (width * height) ≤ INT_MAX) :
    ∀ (n : Nat) (j : Int) (st : σ), (n ≠ 0 → 0 ≤ j ∧ j + n ≤ height) →
      ∃ out, render_tile_rows mats sqrt random_double x0 x1 max_depth width height
        samples_per_pixel cam world background n j st = some out := by
  intro n
  induction n with
  | zero => intro j st _; exact ⟨_, rfl⟩
  | succ n ih =>
    intro j st hbound
    obtain ⟨hj0, hjn⟩ := hbound (Nat.succ_ne_zero n)
    push_cast at hjn
    obtain ⟨⟨row, st1⟩, hrow⟩ := render_tile_row_defined mats sqrt random_double max_depth
      width height samples_per_pixel cam world background j hw hh hj0 (by omega) hsize
      (x1 - x0).toNat x0 st (fun _ => ⟨hx0, by omega⟩)
    obtain ⟨⟨rest, st2⟩, hrest⟩ := ih (j + 1) st1 (fun _ => ⟨by omega, by omega⟩)
    simp only [render_tile_rows, hrow, hrest, Option.bind_eq_bind, Option.some_bind]
    exact ⟨_, rfl⟩

/-- A tile inside an image whose buffer size `3 * width * height` is an `int` runs
without undefined behaviour. -/
theorem render_tile_defined (mats : M → material K M σ) (sqrt : K → K)
    (random_double : σ → K × σ) (tilenum x0 y0 x1 y1 max_depth width height
    samples_per_pixel : Int) (cam : camera K σ) (world : hittable K M σ)
    (background : vec3 K) (per : Int) (st : σ)
    (hx0 : 0 ≤ x0) (hx1 : x1 ≤ width) (hy0 : 0 ≤ y0) (hy1 : y1 ≤ height)
    (hw : width ≤ INT_MAX) (hh : height ≤ INT_MAX)
    (hsize : 3 * (width * height) ≤ INT_MAX)
    (hper0 : INT_MIN < per) (hper : per ≤ INT_MAX) :
    ∃ run, render_tile mats sqrt random_double tilenum x0 y0 x1 y1 max_depth width
      height samples_per_pixel cam world background per st = some run := by
  obtain ⟨⟨stores, st1⟩, hrows⟩ := render_tile_rows_defined mats sqrt random_double x0 x1
    max_depth width height samples_per_pixel cam world background hw hh hx0 hx1 hsize
    (y1 - y0).toNat y0 st (fun _ => ⟨hy0, by omega⟩)
  have e : int_sub per 1 = some (per - 1) := int_result_eq (by omega) (by omega)
  simp only [render_tile, hrows, e, Option.bind_eq_bind, Option.some_bind]
  exact ⟨_, rfl⟩

end TileDefined

/-! ### Framebuffer write disjointness -/

section Disjointness

variable {K M σ : Type} [LinearOrderedField K] [FloorRing K]

/-- The stores of two defined runs of `render_tile` on distinct launched tiles. -/
theorem tile_runs_disjoint (mats : M → material K M σ) (sqrt : K → K)
    (random_double : σ → K × σ) (max_depth width height samples_per_pixel
    num_threads : Int) (cam : camera K σ) (world : hittable K M σ) (background : vec3 K)
    (hw : width ≤ INT_MAX) (h1 : 1 ≤ num_threads) (h2 : num_threads ≤ width)
    (tiles : List TileArgs)
    (htiles : render_multithreaded width height num_threads = some tiles)
    (a b : Nat) (ta tb : TileArgs) (ha : tiles[a]? = some ta) (hb : tiles[b]? = some tb)
    (hab : a ≠ b) (per_a per_b : Int) (st_a st_b : σ) (run_a run_b : tile_run σ)
    (hra : render_tile mats sqrt random_double ta.tilenum ta.x0 ta.y0 ta.x1 ta.y1 max_depth
      width height samples_per_pixel cam world background per_a st_a = some run_a)
    (hrb : render_tile mats sqrt random_double tb.tilenum tb.x0 tb.y0 tb.x1 tb.y1 max_depth
      width height samples_per_pixel cam world background per_b st_b = some run_b) :
    (∀ o : Int, o ∈ run_a.stores.map Prod.fst ↔
      ∃ i j k : Int, ta.x0 ≤ i ∧ i < ta.x1 ∧ 0 ≤ j ∧ j < height ∧ 0 ≤ k ∧ k < 3 ∧
        o = 3 * (j * width + i) + k) ∧
    (∀ o : Int, o ∈ run_b.stores.map Prod.fst ↔
      ∃ i j k : Int, tb.x0 ≤ i ∧ i < tb.x1 ∧ 0 ≤ j ∧ j < height ∧ 0 ≤ k ∧ k < 3 ∧
        o = 3 * (j * width + i) + k) ∧
    ∀ o : Int, o ∈ run_a.stores.map Prod.fst → o ∉ run_b.stores.map Prod.fst := by
  obtain ⟨hka, rfl⟩ := render_multithreaded_getElem? width height num_threads hw h1 h2
    tiles htiles a ta ha
  obtain ⟨hkb, rfl⟩ := render_multithreaded_getElem? width height num_threads hw h1 h2
    tiles htiles b tb hb
  have hoff : ∀ (t : Int) (run : tile_run σ),
      run.stores.map Prod.fst = rows_offsets width
        (tile_at width height num_threads (width / num_threads) t).x0
        (tile_at width height num_threads (width / num_threads) t).x1
        ((tile_at width height num_threads (width / num_threads) t).y1 -
          (tile_at width height num_threads (width / num_threads) t).y0).toNat
        (tile_at width height num_threads (width / num_threads) t).y0 →
      ∀ o : Int, o ∈ run.stores.map Prod.fst ↔
        ∃ i j k : Int, (tile_at width height num_threads (width / num_threads) t).x0 ≤ i ∧
          i < (tile_at width height num_threads (width / num_threads) t).x1 ∧
          0 ≤ j ∧ j < height ∧ 0 ≤ k ∧ k < 3 ∧ o = 3 * (j * width + i) + k := by
    intro t run hrun o
    rw [hrun, mem_rows_offsets]
    simp only [tile_at, sub_zero, zero_add]
    constructor
    · rintro ⟨r, c, k, h1, h2, h3, h4, h5, h6, h7⟩
      exact ⟨c, r, k, h3, h4, h1, by omega, h5, h6, h7⟩
    · rintro ⟨c, r, k, h3, h4, h1, h2, h5, h6, h7⟩
      exact ⟨r, c, k, h1, by omega, h3, h4, h5, h6, h7⟩
  have hoa := hoff a run_a (render_tile_offsets _ _ _ _ _ _ _ _ _ _ _ _ _ _ _ _ _ _ hra)
  have hob := hoff b run_b (render_tile_offsets _ _ _ _ _ _ _ _ _ _ _ _ _ _ _ _ _ _ hrb)
  refine ⟨hoa, hob, ?_⟩
  intro o hmema hmemb
  obtain ⟨i, j, k, hi0, hi1, -, -, hk0, hk1, ho⟩ := (hoa o).mp hmema
  obtain ⟨i', j', k', hi0', hi1', -, -, hk0', hk1', ho'⟩ := (hob o).mp hmemb
  have hcola : (tile_at width height num_threads (width / num_threads) a).has_column i
      = true := by
    simp only [TileArgs.has_column, decide_eq_true_eq]
    exact ⟨hi0, hi1⟩
  have hcolb : (tile_at width height num_threads (width / num_threads) b).has_column i'
      = true := by
    simp only [TileArgs.has_column, decide_eq_true_eq]
    exact ⟨hi0', hi1'⟩
  have hra' := tile_at_column_range width height num_threads i a h1 h2 (by omega) hka hcola
  have hrb' := tile_at_column_range width height num_threads i' b h1 h2 (by omega) hkb
    hcolb
  have hii : i = i' := offset_column_unique width j i k j' i' k' hra'.1 hra'.2 hrb'.1
    hrb'.2 hk0 hk1 hk0' hk1' (by rw [← ho, ← ho'])
  subst hii
  have ea := (tile_at_has_column_iff width height num_threads i a h1 h2 hra'.2 (by omega)
    hka).mp hcola
  have eb := (tile_at_has_column_iff width height num_threads i b h1 h2 hra'.2 (by omega)
    hkb).mp hcolb
  apply hab
  have : (a : Int) = b := by rw [ea, eb]
  exact_mod_cast this

/-- A launched tile lies inside the image. -/
theorem tile_at_bounds (width height num_threads j : Int)
    (h1 : 1 ≤ num_threads) (h2 : num_threads ≤ width) (hj0 : 0 ≤ j)
    (hj : j < num_threads) :
    0 ≤ (tile_at width height num_threads (width / num_threads) j).x0 ∧
      (tile_at width height num_threads (width / num_threads) j).x1 ≤ width := by
  obtain ⟨-, htw, hfit⟩ := tile_width_bounds width num_threads h1 h2
  simp only [tile_at]
  refine ⟨mul_nonneg hj0 (by omega), ?_⟩
  split_ifs with hlast
  · exact le_refl _
  · have : (j + 1) * (width / num_threads) ≤ num_threads * (width / num_threads) :=
      mul_le_mul_of_nonneg_right (by omega) (by omega)
    omega

/-- C2: for `1 ≤ num_threads ≤ width` (`width` an `int`) and two distinct tiles `a ≠ b`
launched by `render_multithreaded`, whatever the scene, camera, sample count, random
states and counters of the two runs: the byte offsets stored to by a run of
`render_tile` (through `write_color`) on a tile are exactly `3*(j*width+i) + k`,
`k = 0, 1, 2`, for the pixels `(i, j)` with `x0 ≤ i < x1` and `0 ≤ j < height`, and no
offset is stored to by both tiles; and both runs are defined (free of `int` overflow)
when the buffer size `3 * width * height` and the counters are `int`s. -/
theorem render_tile_stores_disjoint (mats : M → material K M σ) (sqrt : K → K)
    (random_double : σ → K × σ) (max_depth width height samples_per_pixel
    num_threads : Int) (cam : camera K σ) (world : hittable K M σ) (background : vec3 K)
    (hw : width ≤ INT_MAX) (h1 : 1 ≤ num_threads) (h2 : num_threads ≤ width)
    (tiles : List TileArgs)
    (htiles : render_multithreaded width height num_threads = some tiles)
    (a b : Nat) (ta tb : TileArgs) (ha : tiles[a]? = some ta) (hb : tiles[b]? = some tb)
    (hab : a ≠ b) (per_a per_b : Int) (st_a st_b : σ) :
    (∀ run_a run_b : tile_run σ,
      render_tile mats sqrt random_double ta.tilenum ta.x0 ta.y0 ta.x1 ta.y1 max_depth
        width height samples_per_pixel cam world background per_a st_a = some run_a →
      render_tile mats sqrt random_double tb.tilenum tb.x0 tb.y0 tb.x1 tb.y1 max_depth
        width height samples_per_pixel cam world background per_b st_b = some run_b →
      (∀ o : Int, o ∈ run_a.stores.map Prod.fst ↔
        ∃ i j k : Int, ta.x0 ≤ i ∧ i < ta.x1 ∧ 0 ≤ j ∧ j < height ∧ 0 ≤ k ∧ k < 3 ∧
          o = 3 * (j * width + i) + k) ∧
      (∀ o : Int, o ∈ run_b.stores.map Prod.fst ↔
        ∃ i j k : Int, tb.x0 ≤ i ∧ i < tb.x1 ∧ 0 ≤ j ∧ j < height ∧ 0 ≤ k ∧ k < 3 ∧
          o = 3 * (j * width + i) + k) ∧
      ∀ o : Int, o ∈ run_a.stores.map Prod.fst → o ∉ run_b.stores.map Prod.fst) ∧
    (height ≤ INT_MAX → 3 * (width * height) ≤ INT_MAX →
      INT_MIN < per_a → per_a ≤ INT_MAX → INT_MIN < per_b → per_b ≤ INT_MAX →
      (∃ run_a : tile_run σ,
        render_tile mats sqrt random_double ta.tilenum ta.x0 ta.y0 ta.x1 ta.y1 max_depth
          width height samples_per_pixel cam world background per_a st_a = some run_a) ∧
      (∃ run_b : tile_run σ,
        render_tile mats sqrt random_double tb.tilenum tb.x0 tb.y0 tb.x1 tb.y1 max_depth
          width height samples_per_pixel cam world background per_b st_b = some run_b)) := by
  constructor
  · intro run_a run_b hra hrb
    exact tile_runs_disjoint mats sqrt random_double max_depth width height
      samples_per_pixel num_threads cam world background hw h1 h2 tiles htiles a b ta tb
      ha hb hab per_a per_b st_a st_b run_a run_b hra hrb
  · intro hh hsize hpa0 hpa hpb0 hpb
    obtain ⟨hka, rfl⟩ := render_multithreaded_getElem? width height num_threads hw h1 h2
      tiles htiles a ta ha
    obtain ⟨hkb, rfl⟩ := render_multithreaded_getElem? width height num_threads hw h1 h2
      tiles htiles b tb hb
    obtain ⟨ha0, ha1⟩ := tile_at_bounds width height num_threads a h1 h2 (by omega) hka
    obtain ⟨hb0, hb1⟩ := tile_at_bounds width height num_threads b h1 h2 (by omega) hkb
    exact ⟨render_tile_defined mats sqrt random_double _ _ _ _ _ max_depth width height
        samples_per_pixel cam world background per_a st_a ha0 ha1 (le_refl _) (le_refl _)
        hw hh hsize hpa0 hpa,
      render_tile_defined mats sqrt random_double _ _ _ _ _ max_depth width height
        samples_per_pixel cam world background per_b st_b hb0 hb1 (le_refl _) (le_refl _)
        hw hh hsize hpb0 hpb⟩

/-- Witness of C2: the two one-column tiles of a 2 by 2 image rendered on 2 threads,
over the reals with the real square root, in the sample scene with 4 samples per
pixel: both runs are defined, and their stores are as stated. -/
theorem render_tile_stores_disjoint_witness :
    ∃ run_a run_b : tile_run Nat,
      render_tile (sample_mats : Bool → material ℝ Bool Nat) Real.sqrt sample_random_double
        0 0 0 1 2 5 2 2 4 sample_camera sample_world sample_background 2 0 = some run_a ∧
      render_tile (sample_mats : Bool → material ℝ Bool Nat) Real.sqrt sample_random_double
        1 1 0 2 2 5 2 2 4 sample_camera sample_world sample_background 1 8 = some run_b ∧
      (∀ o : Int, o ∈ run_a.stores.map Prod.fst ↔
        ∃ i j k : Int, 0 ≤ i ∧ i < 1 ∧ 0 ≤ j ∧ j < 2 ∧ 0 ≤ k ∧ k < 3 ∧
          o = 3 * (j * 2 + i) + k) ∧
      (∀ o : Int, o ∈ run_b.stores.map Prod.fst ↔
        ∃ i j k : Int, 1 ≤ i ∧ i < 2 ∧ 0 ≤ j ∧ j < 2 ∧ 0 ≤ k ∧ k < 3 ∧
          o = 3 * (j * 2 + i) + k) ∧
      ∀ o : Int, o ∈ run_a.stores.map Prod.fst → o ∉ run_b.stores.map Prod.fst := by
  have h := render_tile_stores_disjoint (sample_mats : Bool → material ℝ Bool Nat)
    Real.sqrt sample_random_double 5 2 2 4 2 sample_camera sample_world sample_background
    (by decide) (by decide) (by decide) [⟨0, 0, 0, 1, 2⟩, ⟨1, 1, 0, 2, 2⟩] (by decide)
    0 1 ⟨0, 0, 0, 1, 2⟩ ⟨1, 1, 0, 2, 2⟩ rfl rfl (by decide) 2 1 0 8
  obtain ⟨⟨run_a, ha⟩, ⟨run_b, hb⟩⟩ := h.2 (by decide) (by decide) (by decide) (by decide)
    (by decide) (by decide)
  exact ⟨run_a, run_b, ha, hb, h.1 run_a run_b ha hb⟩

end Disjointness

/-! ### Integrator: main results -/

section IntegratorResults

variable {K M σ : Type} [LinearOrderedField K]

/-- C3: with a depth budget of `0`, `ray_colora` and its twin `ray_color` return black
`(0,0,0)` for every ray, background and scene; they pass no ray to the scene, call no
material and leave the state untouched. -/
theorem ray_color_depth_zero (mats : M → material K M σ) (r : ray K)
    (background : vec3 K) (world : hittable K M σ) (s : σ) :
    ray_colora mats r background world 0 s = ⟨⟨0, 0, 0⟩, s, []⟩ ∧
      ray_color mats r background world 0 s = ⟨⟨0, 0, 0⟩, s, []⟩ :=
  ⟨ray_colora_le_zero mats r background world 0 s (le_refl _),
    ray_color_le_zero mats r background world 0 s (le_refl _)⟩

/-- C4: when the scene's query `hit(r, 0.001, infinity)` reports no intersection and the
depth budget is positive, `ray_colora` and `ray_color` return exactly the background
colour they were given, after that single query. -/
theorem ray_color_background (mats : M → material K M σ) (r : ray K)
    (background : vec3 K) (world : hittable K M σ) (depth : Int) (s s1 : σ)
    (hd : 0 < depth) (hmiss : world.hit r 0.001 ⊤ s = (none, s1)) :
    ray_colora mats r background world depth s = ⟨background, s1, [r]⟩ ∧
      ray_color mats r background world depth s = ⟨background, s1, [r]⟩ :=
  ⟨ray_colora_miss mats r background world depth s s1 hd hmiss,
    ray_color_miss mats r background world depth s s1 hd hmiss⟩

/-- Witness of C4: the horizontal ray of the sample scene, depth 5. -/
theorem ray_color_background_witness :
    ray_colora sample_mats (sample_ray_level : ray ℚ) sample_background sample_world 5 0
        = ⟨sample_background, 0, [sample_ray_level]⟩ ∧
      ray_color sample_mats (sample_ray_level : ray ℚ) sample_background sample_world 5 0
        = ⟨sample_background, 0, [sample_ray_level]⟩ :=
  ray_color_background sample_mats (sample_ray_level : ray ℚ) sample_background
    sample_world 5 0 0 (by decide) (by simp [sample_world, sample_ray_level])

/-- C5: when the nearest hit is on a material whose `scatter` reports absorption, the
integrators return exactly `emitted(u, v, p)` of that hit, for every positive depth
budget, and any two positive budgets give the same result. -/
theorem ray_color_emissive (mats : M → material K M σ) (r : ray K)
    (background : vec3 K) (world : hittable K M σ) (s s1 s2 : σ) (rec : hit_record K M)
    (hhit : world.hit r 0.001 ⊤ s = (some rec, s1))
    (habs : (mats rec.mat_ptr).scatter r rec s1 = (none, s2)) :
    (∀ depth : Int, 0 < depth →
      (ray_colora mats r background world depth s).value
          = (mats rec.mat_ptr).emitted rec.u rec.v rec.p ∧
        (ray_color mats r background world depth s).value
          = (mats rec.mat_ptr).emitted rec.u rec.v rec.p) ∧
    (∀ d1 d2 : Int, 0 < d1 → 0 < d2 →
      ray_colora mats r background world d1 s = ray_colora mats r background world d2 s ∧
        ray_color mats r background world d1 s = ray_color mats r background world d2 s) := by
  constructor
  · intro depth hd
    rw [ray_colora_absorbed mats r background world depth s s1 s2 rec hd hhit habs,
      ray_color_absorbed mats r background world depth s s1 s2 rec hd hhit habs]
    exact ⟨rfl, rfl⟩
  · intro d1 d2 h1 h2
    rw [ray_colora_absorbed mats r background world d1 s s1 s2 rec h1 hhit habs,
      ray_colora_absorbed mats r background world d2 s s1 s2 rec h2 hhit habs,
      ray_color_absorbed mats r background world d1 s s1 s2 rec h1 hhit habs,
      ray_color_absorbed mats r background world d2 s s1 s2 rec h2 hhit habs]
    exact ⟨rfl, rfl⟩

/-- Witness of C5: the ray going up to the lamp of the sample scene. -/
theorem ray_color_emissive_witness :
    (∀ depth : Int, 0 < depth →
      (ray_colora sample_mats (sample_ray_up : ray ℚ) sample_background sample_world
          depth 0).value = ⟨4, 4, 4⟩ ∧
        (ray_color sample_mats (sample_ray_up : ray ℚ) sample_background sample_world
          depth 0).value = ⟨4, 4, 4⟩) ∧
    (∀ d1 d2 : Int, 0 < d1 → 0 < d2 →
      ray_colora sample_mats (sample_ray_up : ray ℚ) sample_background sample_world d1 0
          = ray_colora sample_mats sample_ray_up sample_background sample_world d2 0 ∧
        ray_color sample_mats (sample_ray_up : ray ℚ) sample_background sample_world d1 0
          = ray_color sample_mats sample_ray_up sample_background sample_world d2 0) :=
  ray_color_emissive sample_mats (sample_ray_up : ray ℚ) sample_background sample_world
    0 0 0 ⟨⟨0, 1, 0⟩, ⟨0, -1, 0⟩, true, 1, 0, 0, true⟩
    (by norm_num [sample_world, sample_ray_up, vec3.add_def, vec3.smul_def])
    (by simp [sample_mats])

/-- C6: when the depth budget is positive and the nearest hit is on a material whose
`scatter` yields `(attenuation, scattered)`, the integrators return
`emitted + attenuation * (value for scattered at depth - 1)` with the component-wise
product; and the integrators, total functions defined by recursion on the depth budget,
pass at most `depth` rays to the scene, whatever the ray, scene and state. -/
theorem ray_color_recursion (mats : M → material K M σ) (r : ray K)
    (background : vec3 K) (world : hittable K M σ) (depth : Int) (s s1 s2 : σ)
    (rec : hit_record K M) (attenuation : vec3 K) (scattered : ray K)
    (hd : 0 < depth) (hhit : world.hit r 0.001 ⊤ s = (some rec, s1))
    (hsc : (mats rec.mat_ptr).scatter r rec s1 = (some (attenuation, scattered), s2)) :
    (ray_colora mats r background world depth s).value
        = (mats rec.mat_ptr).emitted rec.u rec.v rec.p +
          attenuation * (ray_colora mats scattered background world (depth - 1) s2).value ∧
      (ray_color mats r background world depth s).value
        = (mats rec.mat_ptr).emitted rec.u rec.v rec.p +
          attenuation * (ray_color mats scattered background world (depth - 1) s2).value ∧
      (∀ u v : vec3 K, u * v = ⟨u.x * v.x, u.y * v.y, u.z * v.z⟩) ∧
      (∀ (d : Int) (r' : ray K) (s' : σ),
        (ray_colora mats r' background world d s').queries.length ≤ d.toNat ∧
          (ray_color mats r' background world d s').queries.length ≤ d.toNat) := by
  refine ⟨?_, ?_, fun _ _ => rfl, ?_⟩
  · rw [ray_colora_scattered mats r background world depth s s1 s2 rec attenuation
      scattered hd hhit hsc]
  · rw [ray_color_scattered mats r background world depth s s1 s2 rec attenuation
      scattered hd hhit hsc]
  · intro d r' s'
    rw [ray_color_eq_ray_colora mats background world d.toNat d r' s' rfl]
    exact ⟨ray_colora_queries_le mats background world d.toNat d r' s' rfl,
      ray_colora_queries_le mats background world d.toNat d r' s' rfl⟩

/-- Witness of C6: the ray going down to the grey floor of the sample scene, depth
5. -/
theorem ray_color_recursion_witness :
    (ray_colora sample_mats (sample_ray_down : ray ℚ) sample_background sample_world
          5 0).value
        = ⟨0, 0, 0⟩ + ⟨1 / 2, 1 / 2, 1 / 2⟩ *
          (ray_colora sample_mats sample_ray_bounce sample_background sample_world
            (5 - 1) 1).value ∧
      (ray_color sample_mats (sample_ray_down : ray ℚ) sample_background sample_world
          5 0).value
        = ⟨0, 0, 0⟩ + ⟨1 / 2, 1 / 2, 1 / 2⟩ *
          (ray_color sample_mats sample_ray_bounce sample_background sample_world
            (5 - 1) 1).value ∧
      (∀ u v : vec3 ℚ, u * v = ⟨u.x * v.x, u.y * v.y, u.z * v.z⟩) ∧
      (∀ (d : Int) (r' : ray ℚ) (s' : Nat),
        (ray_colora sample_mats r' sample_background sample_world d s').queries.length
            ≤ d.toNat ∧
          (ray_color sample_mats r' sample_background sample_world d s').queries.length
            ≤ d.toNat) :=
  ray_color_recursion sample_mats (sample_ray_down : ray ℚ) sample_background
    sample_world 5 0 0 1 ⟨⟨0, -1, 0⟩, ⟨0, 1, 0⟩, false, 1, 0, 0, true⟩
    ⟨1 / 2, 1 / 2, 1 / 2⟩ sample_ray_bounce (by decide)
    (by norm_num [sample_world, sample_ray_down, vec3.add_def, vec3.smul_def])
    (by simp [sample_mats, sample_ray_bounce, sample_ray_down])

/-- The sample scene evaluated: the floor ray of the witness returns `(2,2,2)` after two
scene queries, the lamp's `(4,4,4)` halved by the floor. -/
theorem ray_colora_sample_value :
    ray_colora sample_mats (sample_ray_down : ray ℚ) sample_background sample_world 5 0
      = ⟨⟨2, 2, 2⟩, 1, [sample_ray_down, sample_ray_bounce]⟩ := by
  have hfloor : (sample_world : hittable ℚ Bool Nat).hit sample_ray_down 0.001 ⊤ 0
      = (some ⟨⟨0, -1, 0⟩, ⟨0, 1, 0⟩, false, 1, 0, 0, true⟩, 0) := by
    norm_num [sample_world, sample_ray_down, vec3.add_def, vec3.smul_def]
  have hlamp : (sample_world : hittable ℚ Bool Nat).hit sample_ray_bounce 0.001 ⊤ 1
      = (some ⟨⟨0, 1, 0⟩, ⟨0, -1, 0⟩, true, 2, 0, 0, true⟩, 1) := by
    norm_num [sample_world, sample_ray_bounce, vec3.add_def, vec3.smul_def]
  rw [ray_colora_scattered sample_mats _ _ _ 5 0 0 1 _ ⟨1 / 2, 1 / 2, 1 / 2⟩
      sample_ray_bounce (by decide) hfloor
      (by simp [sample_mats, sample_ray_bounce, sample_ray_down]),
    ray_colora_absorbed sample_mats _ _ _ (5 - 1) 1 1 1 _ (by decide) hlamp
      (by simp [sample_mats])]
  simp only [sample_mats, radiance.mk.injEq, and_true]
  show (⟨0 + 1 / 2 * 4, 0 + 1 / 2 * 4, 0 + 1 / 2 * 4⟩ : vec3 ℚ) = ⟨2, 2, 2⟩
  norm_num

end IntegratorResults

/-! ### Pixel quantiser: main results -/

section QuantiserResults

variable {K : Type} [LinearOrderedField K] [FloorRing K]

/-- A quantised channel is a byte. -/
theorem quantize_channel_bounds (sqrt : K → K) (c : K) (sample_count : Int) :
    0 ≤ quantize_channel sqrt c sample_count ∧
      quantize_channel sqrt c sample_count ≤ 255 :=
  trunc_scaled_clamp _

/-- Quantisation is monotone in a non-negative channel sum when the square root is. -/
theorem quantize_channel_mono (sqrt : K → K)
    (hmono : ∀ x y : K, 0 ≤ x → x ≤ y → sqrt x ≤ sqrt y) (a b : K) (sample_count : Int)
    (hs : 1 ≤ sample_count) (ha : 0 ≤ a) (hab : a ≤ b) :
    quantize_channel sqrt a sample_count ≤ quantize_channel sqrt b sample_count := by
  have hn : (0 : K) < (sample_count : K) := by exact_mod_cast (by omega : 0 < sample_count)
  have h1 : sqrt (a / (sample_count : K)) ≤ sqrt (b / (sample_count : K)) :=
    hmono _ _ (div_nonneg ha hn.le) (div_le_div_of_nonneg_right hab hn.le)
  have h2 := clamp_mono _ _ (0.0 : K) 0.999 (by norm_num) h1
  have h3 := (clamp_literal_bounds (sqrt (a / (sample_count : K)))).1
  unfold quantize_channel
  exact trunc_mono_nonneg _ _ (by positivity) (by linarith)

/-- C8: for `samples_per_pixel ≥ 1`, a square root that is monotone on the non-negative
numbers, and two colour sums whose channel `k` satisfies `0 ≤ a ≤ b`, the byte that
`write_color` stores for channel `k` of the first is at most the byte it stores for
channel `k` of the second, at the same offset. -/
theorem write_color_monotone (sqrt : K → K)
    (hmono : ∀ x y : K, 0 ≤ x → x ≤ y → sqrt x ≤ sqrt y) (color_a color_b : vec3 K)
    (image_width i j samples_per_pixel : Int) (log_a log_b : List (Int × Nat))
    (hs : 1 ≤ samples_per_pixel)
    (ha : write_color sqrt color_a image_width i j samples_per_pixel = some log_a)
    (hb : write_color sqrt color_b image_width i j samples_per_pixel = some log_b)
    (k : Fin 3) (h0 : 0 ≤ color_a.channel k)
    (hab : color_a.channel k ≤ color_b.channel k) :
    ∃ (offset : Int) (byte_a byte_b : Nat),
      log_a[k.val]? = some (offset, byte_a) ∧ log_b[k.val]? = some (offset, byte_b) ∧
        byte_a ≤ byte_b := by
  rw [write_color_eq_some sqrt color_a image_width i j samples_per_pixel log_a ha,
    write_color_eq_some sqrt color_b image_width i j samples_per_pixel log_b hb]
  have hq := quantize_channel_mono sqrt hmono _ _ samples_per_pixel hs h0 hab
  have hq0 := (quantize_channel_bounds sqrt (color_a.channel k) samples_per_pixel).1
  have hle : (quantize_channel sqrt (color_a.channel k) samples_per_pixel).toNat ≤
      (quantize_channel sqrt (color_b.channel k) samples_per_pixel).toNat := by
    omega
  fin_cases k
  · exact ⟨_, _, _, rfl, rfl, hle⟩
  · exact ⟨_, _, _, rfl, rfl, hle⟩
  · exact ⟨_, _, _, rfl, rfl, hle⟩

/-- The quantiser evaluated over the reals: the colour sum `(4, 1, 0)` of 4 samples at
pixel `(1, 0)` of a 2-column image is stored as `255, 128, 0` at offsets `3, 4, 5`. -/
theorem write_color_sample :
    write_color Real.sqrt (⟨4, 1, 0⟩ : vec3 ℝ) 2 1 0 4
      = some [(3, 255), (4, 128), (5, 0)] := by
  obtain ⟨log, h⟩ := write_color_defined Real.sqrt (⟨4, 1, 0⟩ : vec3 ℝ) 2 1 1 0 4
    (by decide) (by decide) (by decide) (by decide) (by decide)
  rw [h, write_color_eq_some Real.sqrt _ _ _ _ _ log h]
  have hx : quantize_channel Real.sqrt (4 : ℝ) 4 = 255 := by
    unfold quantize_channel
    apply trunc_scaled_clamp_high
    norm_num
  have hy : quantize_channel Real.sqrt (1 : ℝ) 4 = 128 := by
    have hsq : Real.sqrt (1 / ((4 : Int) : ℝ)) = 1 / 2 := by
      rw [show (1 / ((4 : Int) : ℝ)) = (1 / 2) ^ 2 by norm_num]
      exact Real.sqrt_sq (by norm_num)
    unfold quantize_channel
    rw [hsq, literal_zero, literal_999]
    have hc : clamp (1 / 2 : ℝ) 0 (999 / 1000) = 1 / 2 := by
      unfold clamp
      norm_num
    rw [hc]
    unfold trunc
    norm_num
  have hz : quantize_channel Real.sqrt (0 : ℝ) 4 = 0 := by
    unfold quantize_channel
    apply trunc_scaled_clamp_low
    simp
  simp only [hx, hy, hz]
  rfl

/-- A second evaluation: the darker colour sum `(1, 1, 0)` of 4 samples is stored as
`128, 128, 0`. -/
theorem write_color_sample_darker :
    write_color Real.sqrt (⟨1, 1, 0⟩ : vec3 ℝ) 2 1 0 4
      = some [(3, 128), (4, 128), (5, 0)] := by
  obtain ⟨log, h⟩ := write_color_defined Real.sqrt (⟨1, 1, 0⟩ : vec3 ℝ) 2 1 1 0 4
    (by decide) (by decide) (by decide) (by decide) (by decide)
  rw [h, write_color_eq_some Real.sqrt _ _ _ _ _ log h]
  have hy : quantize_channel Real.sqrt (1 : ℝ) 4 = 128 := by
    have hsq : Real.sqrt (1 / ((4 : Int) : ℝ)) = 1 / 2 := by
      rw [show (1 / ((4 : Int) : ℝ)) = (1 / 2) ^ 2 by norm_num]
      exact Real.sqrt_sq (by norm_num)
    unfold quantize_channel
    rw [hsq, literal_zero, literal_999]
    have hc : clamp (1 / 2 : ℝ) 0 (999 / 1000) = 1 / 2 := by
      unfold clamp
      norm_num
    rw [hc]
    unfold trunc
    norm_num
  have hz : quantize_channel Real.sqrt (0 : ℝ) 4 = 0 := by
    unfold quantize_channel
    apply trunc_scaled_clamp_low
    simp
  simp only [hy, hz]
  rfl

/-- Witness of C8: the red channel of `(1, 1, 0)` against that of `(4, 1, 0)`, over the
reals with the real square root: 128 against 255. -/
theorem write_color_monotone_witness :
    ∃ (offset : Int) (byte_a byte_b : Nat),
      [((3 : Int), 128), (4, 128), (5, 0)][(0 : Fin 3).val]? = some (offset, byte_a) ∧
        [((3 : Int), 255), (4, 128), (5, 0)][(0 : Fin 3).val]? = some (offset, byte_b) ∧
        byte_a ≤ byte_b :=
  write_color_monotone Real.sqrt (fun _ _ _ hxy => Real.sqrt_le_sqrt hxy)
    (⟨1, 1, 0⟩ : vec3 ℝ) (⟨4, 1, 0⟩ : vec3 ℝ) 2 1 0 4 _ _ (by decide)
    write_color_sample_darker write_color_sample 0
    (by simp [vec3.channel]) (by simp [vec3.channel])

end QuantiserResults

/-! ### Mesh placement -/

section MeshTheorems

variable {K M : Type} [LinearOrderedField K]

/-- The constructor's loop appends, for each raw triangle in order, the triangle
constructed from its three placed vertices. -/
theorem triangle_mesh_loop_eq (sqrt : K → K) (rotate : vec3 K → vec3 K → vec3 K)
    (mat : M) (pos rot scal : vec3 K) :
    ∀ (raw acc : List (triangle K M)),
      triangle_mesh_loop sqrt rotate mat pos rot scal raw acc =
        acc ++ raw.map (fun tri => triangle.init sqrt
          (place_vertex rotate pos rot scal tri.v0)
          (place_vertex rotate pos rot scal tri.v1)
          (place_vertex rotate pos rot scal tri.v2) mat) := by
  intro raw
  induction raw with
  | nil => intro acc; simp [triangle_mesh_loop]
  | cons tri rest ih =>
    intro acc
    simp only [triangle_mesh_loop, ih, List.map_cons, List.append_assoc,
      List.singleton_append, place_vertex]

/-- The mesh built from a loaded list of raw triangles. -/
theorem triangle_mesh_init_eq (sqrt : K → K) (rotate : vec3 K → vec3 K → vec3 K)
    (lambertian : M) (file : Option (List (obj_line K))) (mat : M)
    (pos rot scal : vec3 K) (raw : List (triangle K M))
    (hload : load_obj_file sqrt lambertian file = some raw) :
    triangle_mesh.init sqrt rotate lambertian file mat pos rot scal =
      some ⟨raw.map (fun tri => triangle.init sqrt
          (place_vertex rotate pos rot scal tri.v0)
          (place_vertex rotate pos rot scal tri.v1)
          (place_vertex rotate pos rot scal tri.v2) mat), mat⟩ := by
  simp [triangle_mesh.init, hload, triangle_mesh_loop_eq]

/-- With zero rotation the identity, the placement with scale `(2,1,1)` and translation
`(1,0,0)` sends `(x, y, z)` to `(2x + 1, y, z)`. -/
theorem place_vertex_sample (rotate : vec3 K → vec3 K → vec3 K)
    (hrot : ∀ v : vec3 K, rotate v 0 = v) (v : vec3 K) :
    place_vertex rotate ⟨1, 0, 0⟩ 0 ⟨2, 1, 1⟩ v = ⟨2 * v.x + 1, v.y, v.z⟩ := by
  simp only [place_vertex, hrot, vec3.mul_def, vec3.add_def, vec3.mk.injEq]
  refine ⟨by ring, by ring, by ring⟩

/-- C9: for every mesh file that loads to the raw list `raw` and every placement
`(pos, rot, scal)`, the `triangle_mesh` constructor emits one triangle per raw triangle,
in the same order, with the given material, whose vertices are
`rotate(v * scal, rot) + pos` for the raw vertices `v`; and if rotating by the zero
angles is the identity, the placement with scale `(2,1,1)`, zero rotation and
translation `(1,0,0)` sends each vertex `(x, y, z)` to `(2x + 1, y, z)`. -/
theorem triangle_mesh_vertices (sqrt : K → K) (rotate : vec3 K → vec3 K → vec3 K)
    (lambertian : M) (file : Option (List (obj_line K))) (mat : M)
    (pos rot scal : vec3 K) (raw : List (triangle K M))
    (hload : load_obj_file sqrt lambertian file = some raw) :
    (∃ mesh : triangle_mesh K M,
      triangle_mesh.init sqrt rotate lambertian file mat pos rot scal = some mesh ∧
      mesh.triangles.length = raw.length ∧
      ∀ (k : Nat) (tri : triangle K M), raw[k]? = some tri →
        ∃ out : triangle K M, mesh.triangles[k]? = some out ∧
          out.v0 = rotate (tri.v0 * scal) rot + pos ∧
          out.v1 = rotate (tri.v1 * scal) rot + pos ∧
          out.v2 = rotate (tri.v2 * scal) rot + pos ∧
          out.mat_ptr = mat) ∧
    ((∀ v : vec3 K, rotate v 0 = v) →
      ∃ mesh : triangle_mesh K M,
        triangle_mesh.init sqrt rotate lambertian file mat ⟨1, 0, 0⟩ 0 ⟨2, 1, 1⟩
          = some mesh ∧
        mesh.triangles.length = raw.length ∧
        ∀ (k : Nat) (tri : triangle K M), raw[k]? = some tri →
          ∃ out : triangle K M, mesh.triangles[k]? = some out ∧
            out.v0 = ⟨2 * tri.v0.x + 1, tri.v0.y, tri.v0.z⟩ ∧
            out.v1 = ⟨2 * tri.v1.x + 1, tri.v1.y, tri.v1.z⟩ ∧
            out.v2 = ⟨2 * tri.v2.x + 1, tri.v2.y, tri.v2.z⟩) := by
  constructor
  · refine ⟨_, triangle_mesh_init_eq sqrt rotate lambertian file mat pos rot scal raw
      hload, by simp, ?_⟩
    intro k tri hk
    refine ⟨triangle.init sqrt (place_vertex rotate pos rot scal tri.v0)
      (place_vertex rotate pos rot scal tri.v1) (place_vertex rotate pos rot scal tri.v2)
      mat, by simp only [List.getElem?_map, hk, Option.map_some'], rfl, rfl, rfl, rfl⟩
  · intro hrot
    refine ⟨_, triangle_mesh_init_eq sqrt rotate lambertian file mat ⟨1, 0, 0⟩ 0
      ⟨2, 1, 1⟩ raw hload, by simp, ?_⟩
    intro k tri hk
    refine ⟨triangle.init sqrt (place_vertex rotate ⟨1, 0, 0⟩ 0 ⟨2, 1, 1⟩ tri.v0)
      (place_vertex rotate ⟨1, 0, 0⟩ 0 ⟨2, 1, 1⟩ tri.v1)
      (place_vertex rotate ⟨1, 0, 0⟩ 0 ⟨2, 1, 1⟩ tri.v2) mat,
      by simp only [List.getElem?_map, hk, Option.map_some'], ?_, ?_, ?_⟩ <;>
    exact place_vertex_sample rotate hrot _

/-- The sample file loads to its two raw triangles. -/
theorem load_obj_file_sample (sqrt : K → K) :
    load_obj_file sqrt false (some (sample_obj : List (obj_line K)))
      = some (sample_raw sqrt) := by
  have e1 : int_sub 1 1 = some 0 := by decide
  have e2 : int_sub 2 1 = some 1 := by decide
  have e3 : int_sub 3 1 = some 2 := by decide
  have e4 : int_sub 4 1 = some 3 := by decide
  have e5 : int_sub 5 1 = some 4 := by decide
  simp [load_obj_file, sample_obj, load_obj_file_loop, e1, e2, e3, e4, e5, sample_raw]

/-- The sample rotation is the identity at the zero angles. -/
theorem sample_rotate_zero (v : vec3 K) : sample_rotate v 0 = v := by
  simp [sample_rotate, vec3.zero_def]

/-- Witness of C9: the sample file over the reals, placed at `(5, 6, 7)` with the
half-angle tangent `1` about Y and scale `(2, 3, 4)`. -/
theorem triangle_mesh_vertices_witness :
    (∃ mesh : triangle_mesh ℝ Bool,
      triangle_mesh.init Real.sqrt sample_rotate false (some sample_obj) true
        ⟨5, 6, 7⟩ ⟨0, 1, 0⟩ ⟨2, 3, 4⟩ = some mesh ∧
      mesh.triangles.length = (sample_raw Real.sqrt).length ∧
      ∀ (k : Nat) (tri : triangle ℝ Bool), (sample_raw Real.sqrt)[k]? = some tri →
        ∃ out : triangle ℝ Bool, mesh.triangles[k]? = some out ∧
          out.v0 = sample_rotate (tri.v0 * ⟨2, 3, 4⟩) ⟨0, 1, 0⟩ + ⟨5, 6, 7⟩ ∧
          out.v1 = sample_rotate (tri.v1 * ⟨2, 3, 4⟩) ⟨0, 1, 0⟩ + ⟨5, 6, 7⟩ ∧
          out.v2 = sample_rotate (tri.v2 * ⟨2, 3, 4⟩) ⟨0, 1, 0⟩ + ⟨5, 6, 7⟩ ∧
          out.mat_ptr = true) ∧
    ∃ mesh : triangle_mesh ℝ Bool,
      triangle_mesh.init Real.sqrt sample_rotate false (some sample_obj) true
        ⟨1, 0, 0⟩ 0 ⟨2, 1, 1⟩ = some mesh ∧
      mesh.triangles.length = (sample_raw Real.sqrt).length ∧
      ∀ (k : Nat) (tri : triangle ℝ Bool), (sample_raw Real.sqrt)[k]? = some tri →
        ∃ out : triangle ℝ Bool, mesh.triangles[k]? = some out ∧
          out.v0 = ⟨2 * tri.v0.x + 1, tri.v0.y, tri.v0.z⟩ ∧
          out.v1 = ⟨2 * tri.v1.x + 1, tri.v1.y, tri.v1.z⟩ ∧
          out.v2 = ⟨2 * tri.v2.x + 1, tri.v2.y, tri.v2.z⟩ :=
  ⟨(triangle_mesh_vertices Real.sqrt sample_rotate false (some sample_obj) true
      ⟨5, 6, 7⟩ ⟨0, 1, 0⟩ ⟨2, 3, 4⟩ (sample_raw Real.sqrt)
      (load_obj_file_sample Real.sqrt)).1,
    (triangle_mesh_vertices Real.sqrt sample_rotate false (some sample_obj) true
      ⟨5, 6, 7⟩ ⟨0, 1, 0⟩ ⟨2, 3, 4⟩ (sample_raw Real.sqrt)
      (load_obj_file_sample Real.sqrt)).2 sample_rotate_zero⟩

end MeshTheorems

/-! ### Normals under the sample placement -/

section NormalTheorems

variable {K M : Type} [LinearOrderedField K]

/-- The sample mesh after the sample placement, evaluated. -/
theorem triangle_mesh_sample (sqrt : K → K) :
    triangle_mesh.init sqrt sample_rotate false (some (sample_obj : List (obj_line K)))
        true ⟨1, 0, 0⟩ 0 ⟨2, 1, 1⟩ =
      some ⟨[triangle.init sqrt ⟨1, 0, 0⟩ ⟨3, 0, 0⟩ ⟨1, 1, 0⟩ true,
        triangle.init sqrt ⟨1, 0, 0⟩ ⟨1, 0, 1⟩ ⟨3, -1, 0⟩ true], true⟩ := by
  rw [triangle_mesh_init_eq sqrt sample_rotate false _ true ⟨1, 0, 0⟩ 0 ⟨2, 1, 1⟩
    (sample_raw sqrt) (load_obj_file_sample sqrt)]
  simp only [sample_raw, List.map_cons, List.map_nil,
    place_vertex_sample sample_rotate sample_rotate_zero, triangle.init]
  norm_num

end NormalTheorems

/-! ### A thread count of zero -/

/-- C13, amended: `render_multithreaded` has no path that rejects a call: with a thread
count of zero its first statement `width / num_threads` is an integer division by zero,
so the call has undefined behaviour before any launch, for every width and height; and
`main` never makes that call: for a thread count of zero it runs its single-threaded
loop, for any other count it calls `render_multithreaded`. -/
theorem render_multithreaded_zero_threads (width height : Int) :
    int_div width 0 = none ∧
      render_multithreaded width height 0 = none ∧
      main_render width height 0 = render_choice.single_threaded ∧
      ∀ threads : Int, threads ≠ 0 →
        main_render width height threads =
          render_choice.multithreaded (render_multithreaded width height threads) := by
  refine ⟨by simp [int_div], by simp [render_multithreaded, int_div],
    by simp [main_render], ?_⟩
  intro threads h
  simp [main_render, h]

/-- C13, counterexample: on a 2 by 2 image, `render_multithreaded` with a thread count of
zero divides by zero in its first statement and has no defined outcome, hence does not
complete with a rejection; and `main`, given the thread count zero, does not signal an
error but renders with its single-threaded loop. -/
theorem render_multithreaded_zero_counterexample :
    int_div 2 0 = none ∧
      (¬ ∃ launches : List TileArgs, render_multithreaded 2 2 0 = some launches) ∧
      main_render 2 2 0 = render_choice.single_threaded := by
  refine ⟨by decide, by simp [render_multithreaded, int_div], by decide⟩

/-! ### Mesh files with an invalid face -/

section ScanTheorems

variable {K M : Type} [LinearOrderedField K]

end ScanTheorems


/-! ### Triangle intersection -/

section HitTheorems

variable {K M : Type} [LinearOrderedField K]

/-- The sum of two `double`s, unfolded. -/
theorem xdouble_add_def (a b : xdouble K) : a + b = xdouble.add a b := rfl

/-- The difference of two `double`s, unfolded. -/
theorem xdouble_sub_def (a b : xdouble K) : a - b = xdouble.add a (xdouble.neg b) := rfl

/-- The product of two `double`s, unfolded. -/
theorem xdouble_mul_def (a b : xdouble K) : a * b = xdouble.mul a b := rfl

/-- The quotient of two `double`s, unfolded. -/
theorem xdouble_div_def (a b : xdouble K) : a / b = xdouble.div a b := rfl

/-- The opposite of a `double`, unfolded. -/
theorem xdouble_neg_def (a : xdouble K) : -a = xdouble.neg a := rfl

/-- The sum of two vectors of `double`s, unfolded. -/
theorem xvec3_add_def (u v : vec3 (xdouble K)) :
    u + v = ⟨u.x + v.x, u.y + v.y, u.z + v.z⟩ := rfl

/-- The difference of two vectors of `double`s, unfolded. -/
theorem xvec3_sub_def (u v : vec3 (xdouble K)) :
    u - v = ⟨u.x - v.x, u.y - v.y, u.z - v.z⟩ := rfl

/-- The component-wise product of two vectors of `double`s, unfolded. -/
theorem xvec3_mul_def (u v : vec3 (xdouble K)) :
    u * v = ⟨u.x * v.x, u.y * v.y, u.z * v.z⟩ := rfl

/-- The product of a `double` and a vector of `double`s, unfolded. -/
theorem xvec3_smul_def (t : xdouble K) (v : vec3 (xdouble K)) :
    t * v = ⟨t * v.x, t * v.y, t * v.z⟩ := rfl

/-- NaN plus anything is NaN. -/
theorem xdouble.nan_add (a : xdouble K) : xdouble.add xdouble.nan a = xdouble.nan := by
  cases a <;> rfl

/-- Anything plus NaN is NaN. -/
theorem xdouble.add_nan (a : xdouble K) : xdouble.add a xdouble.nan = xdouble.nan := by
  cases a <;> rfl

/-- NaN times anything is NaN. -/
theorem xdouble.nan_mul (a : xdouble K) : xdouble.mul xdouble.nan a = xdouble.nan := by
  cases a <;> rfl

/-- Anything times NaN is NaN. -/
theorem xdouble.mul_nan (a : xdouble K) : xdouble.mul a xdouble.nan = xdouble.nan := by
  cases a <;> rfl

/-- NaN over anything is NaN. -/
theorem xdouble.nan_div (a : xdouble K) : xdouble.div xdouble.nan a = xdouble.nan := by
  cases a <;> rfl

/-- No comparison with NaN on the left holds. -/
theorem xdouble.nan_lt (a : xdouble K) : xdouble.lt xdouble.nan a = false := by
  cases a <;> rfl

/-- No comparison with NaN on the right holds. -/
theorem xdouble.lt_nan (a : xdouble K) : xdouble.lt a xdouble.nan = false := by
  cases a <;> rfl

/-- A finite number over zero is not finite. -/
theorem xdouble.fin_div_zero (a b : K) :
    xdouble.div (xdouble.fin a) (xdouble.fin 0) ≠ xdouble.fin b := by
  simp only [xdouble.div, if_true]
  split_ifs <;> simp

/-- A NaN parameter `t` passes both tests of `triangle::hit`: the call reports a hit and
fills the record with NaN. -/
theorem triangle_hit_of_nan (rotate : vec3 (xdouble K) → vec3 (xdouble K) → vec3 (xdouble K))
    (tri : triangle K M) (r : ray K) (t_min t_max : xdouble K)
    (rec : hit_record (xdouble K) M)
    (ht : xdot (tri.v0.to_x - tri.local_origin r) tri.normal.to_x /
      xdot (tri.local_direction rotate r) tri.normal.to_x = xdouble.nan) :
    triangle.hit rotate tri r t_min t_max rec =
      (true, { rec with
        t := xdouble.nan
        p := ⟨xdouble.nan, xdouble.nan, xdouble.nan⟩
        normal := rotate tri.normal.to_x tri.rotation.to_x
        mat_ptr := tri.mat_ptr }) := by
  simp only [triangle.hit, ht]
  simp [xdot, xcross, xvec3_add_def, xvec3_sub_def, xvec3_mul_def, xvec3_smul_def,
    xdouble_add_def, xdouble_sub_def, xdouble_mul_def, xdouble.nan_add, xdouble.add_nan,
    xdouble.nan_mul, xdouble.mul_nan, xdouble.nan_lt, xdouble.lt_nan, xdouble.neg]

/-- A parameter `t` outside the window is rejected and the record is left as it was. -/
theorem triangle_hit_outside_window
    (rotate : vec3 (xdouble K) → vec3 (xdouble K) → vec3 (xdouble K))
    (tri : triangle K M) (r : ray K) (t_min t_max : xdouble K)
    (rec : hit_record (xdouble K) M)
    (ht : (xdot (tri.v0.to_x - tri.local_origin r) tri.normal.to_x /
        xdot (tri.local_direction rotate r) tri.normal.to_x).lt t_min = true ∨
      t_max.lt (xdot (tri.v0.to_x - tri.local_origin r) tri.normal.to_x /
        xdot (tri.local_direction rotate r) tri.normal.to_x) = true) :
    triangle.hit rotate tri r t_min t_max rec = (false, rec) := by
  simp only [triangle.hit]
  rw [if_pos]
  simpa using ht

/-- On a triangle with zero position and zero scale, a ray whose origin has a zero `x`
has a NaN parameter `t`, whatever `rotate` does. -/
theorem triangle_zero_scale_nan
    (rotate : vec3 (xdouble K) → vec3 (xdouble K) → vec3 (xdouble K))
    (tri : triangle K M) (r : ray K) (hpos : tri.position = 0) (hscale : tri.scale = 0)
    (hr : r.orig.x = 0) :
    xdot (tri.v0.to_x - tri.local_origin r) tri.normal.to_x /
      xdot (tri.local_direction rotate r) tri.normal.to_x = xdouble.nan := by
  have hx : (tri.local_origin r).x = xdouble.nan := by
    simp [triangle.local_origin, divvy, vec3.to_x, hpos, hscale, vec3.zero_def, hr,
      xvec3_sub_def, xdouble_sub_def, xdouble_div_def, xdouble.add, xdouble.neg,
      xdouble.div]
  simp [xdot, xvec3_sub_def, hx, xdouble_sub_def, xdouble_add_def, xdouble_mul_def,
    xdouble_div_def, xdouble.neg, xdouble.add_nan, xdouble.nan_mul, xdouble.nan_add,
    xdouble.nan_div]

/-- On a triangle with zero scale no component of the local origin is finite: it is not
the origin of the ray. -/
theorem triangle_zero_scale_origin (tri : triangle K M) (r : ray K)
    (hscale : tri.scale = 0) :
    (∀ b : K, (tri.local_origin r).x ≠ xdouble.fin b) ∧
      (∀ b : K, (tri.local_origin r).y ≠ xdouble.fin b) ∧
      (∀ b : K, (tri.local_origin r).z ≠ xdouble.fin b) ∧
      tri.local_origin r ≠ r.orig.to_x := by
  have hx : ∀ b : K, (tri.local_origin r).x ≠ xdouble.fin b := by
    intro b
    simp only [triangle.local_origin, divvy, vec3.to_x, hscale, vec3.zero_def,
      xvec3_sub_def, xdouble_sub_def, xdouble_div_def, xdouble.add, xdouble.neg]
    exact xdouble.fin_div_zero _ b
  have hy : ∀ b : K, (tri.local_origin r).y ≠ xdouble.fin b := by
    intro b
    simp only [triangle.local_origin, divvy, vec3.to_x, hscale, vec3.zero_def,
      xvec3_sub_def, xdouble_sub_def, xdouble_div_def, xdouble.add, xdouble.neg]
    exact xdouble.fin_div_zero _ b
  have hz : ∀ b : K, (tri.local_origin r).z ≠ xdouble.fin b := by
    intro b
    simp only [triangle.local_origin, divvy, vec3.to_x, hscale, vec3.zero_def,
      xvec3_sub_def, xdouble_sub_def, xdouble_div_def, xdouble.add, xdouble.neg]
    exact xdouble.fin_div_zero _ b
  refine ⟨hx, hy, hz, ?_⟩
  intro h
  exact hx r.orig.x (by rw [h]; rfl)

/-- Every triangle emitted by the `triangle_mesh` constructor has its `position`,
`rotation` and `scale` at the default `vec3()`, which is zero. -/
theorem triangle_mesh_defaults (sqrt : K → K) (rotate : vec3 K → vec3 K → vec3 K)
    (lambertian : M) (file : Option (List (obj_line K))) (mat : M)
    (pos rot scal : vec3 K) (mesh : triangle_mesh K M)
    (hmesh : triangle_mesh.init sqrt rotate lambertian file mat pos rot scal = some mesh)
    (tri : triangle K M) (htri : tri ∈ mesh.triangles) :
    tri.position = 0 ∧ tri.rotation = 0 ∧ tri.scale = 0 := by
  cases hload : load_obj_file sqrt lambertian file with
  | none => simp [triangle_mesh.init, hload] at hmesh
  | some raw =>
    rw [triangle_mesh_init_eq sqrt rotate lambertian file mat pos rot scal raw hload]
      at hmesh
    cases hmesh
    simp only [List.mem_map] at htri
    obtain ⟨t0, _, rfl⟩ := htri
    exact ⟨rfl, rfl, rfl⟩

/-- The record of an accepted hit: `t`, the material, the normal rotated by `rotation`,
and as hit point the local point `origin + t * direction` scaled and translated; the
other fields are left as they were. -/
theorem triangle_hit_accepted
    (rotate : vec3 (xdouble K) → vec3 (xdouble K) → vec3 (xdouble K))
    (tri : triangle K M) (r : ray K) (t_min t_max : xdouble K)
    (rec out : hit_record (xdouble K) M)
    (h : triangle.hit rotate tri r t_min t_max rec = (true, out)) :
    out.t = xdot (tri.v0.to_x - tri.local_origin r) tri.normal.to_x /
        xdot (tri.local_direction rotate r) tri.normal.to_x ∧
      out.mat_ptr = tri.mat_ptr ∧
      out.normal = rotate tri.normal.to_x tri.rotation.to_x ∧
      out.p = (tri.local_origin r + out.t * tri.local_direction rotate r) * tri.scale.to_x +
        tri.position.to_x ∧
      out.u = rec.u ∧ out.v = rec.v ∧ out.front_face = rec.front_face := by
  simp only [triangle.hit] at h
  split_ifs at h
  · simp at h
  · simp at h
  · rw [Prod.mk.injEq] at h
    obtain ⟨_, rfl⟩ := h
    exact ⟨rfl, rfl, rfl, rfl, rfl, rfl, rfl⟩

end HitTheorems


/-! ### Triangle intersection: evaluation -/

section HitEvaluation

/-- The unit triangle with the identity transform over the reals, field by field. -/
theorem sample_unit_triangle_eq :
    sample_unit_triangle Real.sqrt =
      ⟨⟨0, 0, 0⟩, ⟨1, 0, 0⟩, ⟨0, 1, 0⟩, ⟨0, 0, 1⟩, true, ⟨0, 0, 0⟩, ⟨0, 0, 0⟩, ⟨1, 1, 1⟩⟩ := by
  simp [sample_unit_triangle, triangle.init, unit_vector, vec3.length, vec3.length_squared,
    cross, vec3.sub_def, vec3.div_def, vec3.zero_def]

/-- The turned unit triangle over the reals, field by field. -/
theorem sample_turned_triangle_eq :
    sample_turned_triangle Real.sqrt =
      ⟨⟨0, 0, 0⟩, ⟨1, 0, 0⟩, ⟨0, 1, 0⟩, ⟨0, 0, 1⟩, true, ⟨0, 0, 0⟩, ⟨0, 1, 0⟩, ⟨1, 1, 1⟩⟩ := by
  simp [sample_turned_triangle, triangle.init, unit_vector, vec3.length,
    vec3.length_squared, cross, vec3.sub_def, vec3.div_def, vec3.zero_def]

/-- The emitted sample triangle over the reals, field by field. -/
theorem sample_mesh_triangle_eq :
    sample_mesh_triangle Real.sqrt =
      ⟨⟨1, 0, 0⟩, ⟨3, 0, 0⟩, ⟨1, 1, 0⟩, ⟨0, 0, 1⟩, true, ⟨0, 0, 0⟩, ⟨0, 0, 0⟩, ⟨0, 0, 0⟩⟩ := by
  have h4 : Real.sqrt ((3 - 1) * (3 - 1)) = 3 - 1 := Real.sqrt_mul_self (by norm_num)
  simp [sample_mesh_triangle, triangle.init, unit_vector, vec3.length, vec3.length_squared,
    cross, vec3.sub_def, vec3.div_def, vec3.zero_def, h4]
  norm_num

/-- C11: over the reals, the `triangle_mesh` constructor emits for the sample file placed
with scale `(2,1,1)`, zero rotation and translation `(1,0,0)` the triangle
`(1,0,0), (3,0,0), (1,1,0)` with `position`, `rotation` and `scale` all `(0,0,0)`.  For
the ray from `(3/2, 1/4, 1)` along `(0,0,-1)`, which meets that triangle at `t = 1`,
`hit` takes `(+inf, +inf, +inf)` as local origin, not the ray's origin, divides the
direction by the scale into `(NaN, NaN, -inf)`, not the ray's direction, and whatever
`rotate` does it reports a hit with `t` and the hit point NaN. -/
theorem triangle_mesh_default_scale :
    triangle_mesh.init Real.sqrt sample_rotate false (some (sample_obj : List (obj_line ℝ)))
        true ⟨1, 0, 0⟩ 0 ⟨2, 1, 1⟩ =
      some ⟨[sample_mesh_triangle Real.sqrt,
        triangle.init Real.sqrt ⟨1, 0, 0⟩ ⟨1, 0, 1⟩ ⟨3, -1, 0⟩ true], true⟩ ∧
      (sample_mesh_triangle Real.sqrt).position = ⟨0, 0, 0⟩ ∧
      (sample_mesh_triangle Real.sqrt).rotation = ⟨0, 0, 0⟩ ∧
      (sample_mesh_triangle Real.sqrt).scale = ⟨0, 0, 0⟩ ∧
      (sample_mesh_triangle Real.sqrt).local_origin ⟨⟨3 / 2, 1 / 4, 1⟩, ⟨0, 0, -1⟩, 0⟩ =
        ⟨xdouble.inf true, xdouble.inf true, xdouble.inf true⟩ ∧
      (sample_mesh_triangle Real.sqrt).local_origin ⟨⟨3 / 2, 1 / 4, 1⟩, ⟨0, 0, -1⟩, 0⟩ ≠
        vec3.to_x ⟨3 / 2, 1 / 4, 1⟩ ∧
      divvy (vec3.to_x ⟨0, 0, -1⟩) (sample_mesh_triangle Real.sqrt).scale.to_x =
        ⟨xdouble.nan, xdouble.nan, xdouble.inf false⟩ ∧
      ∀ rotate : vec3 (xdouble ℝ) → vec3 (xdouble ℝ) → vec3 (xdouble ℝ),
        triangle.hit rotate (sample_mesh_triangle Real.sqrt)
            ⟨⟨3 / 2, 1 / 4, 1⟩, ⟨0, 0, -1⟩, 0⟩ (xdouble.fin 0.001) (xdouble.inf true)
            sample_hit_record =
          (true, { (sample_hit_record : hit_record (xdouble ℝ) Bool) with
            t := xdouble.nan
            p := ⟨xdouble.nan, xdouble.nan, xdouble.nan⟩
            normal := rotate (vec3.to_x ⟨0, 0, 1⟩) (vec3.to_x ⟨0, 0, 0⟩)
            mat_ptr := true }) := by
  have horigin : (sample_mesh_triangle Real.sqrt).local_origin
      ⟨⟨3 / 2, 1 / 4, 1⟩, ⟨0, 0, -1⟩, 0⟩ =
        ⟨xdouble.inf true, xdouble.inf true, xdouble.inf true⟩ := by
    rw [sample_mesh_triangle_eq]
    simp [triangle.local_origin, divvy, vec3.to_x, xvec3_sub_def, xdouble_sub_def,
      xdouble_div_def, xdouble.add, xdouble.neg, xdouble.div]
  refine ⟨triangle_mesh_sample Real.sqrt, rfl, rfl, rfl, horigin, ?_, ?_, ?_⟩
  · rw [horigin]
    simp [vec3.to_x]
  · rw [sample_mesh_triangle_eq]
    simp [divvy, vec3.to_x, xdouble_div_def, xdouble.div]
  · intro rotate
    rw [triangle_hit_of_nan]
    · rw [sample_mesh_triangle_eq]
    · rw [horigin, sample_mesh_triangle_eq]
      simp [xdot, vec3.to_x, xvec3_sub_def, xdouble_sub_def, xdouble_add_def,
        xdouble_mul_def, xdouble_div_def, xdouble.add, xdouble.neg, xdouble.mul,
        xdouble.nan_div]

/-- C14: over the reals, `hit` reports a hit with a NaN parameter `t` (a) on the emitted
sample triangle, whose scale is zero, for the ray from `(0,0,0)` along `(0,0,-1)`,
whatever the window, the record and `rotate` are; (b) on the unit triangle with the
identity transform for the ray from `(0,0,0)` along `(1,0,0)`, which lies in the plane
of the triangle (numerator and denominator zero); and it reports a hit with `t = +inf`
(c) for the ray from `(0,0,-1)` along `(1,0,0)`, parallel to the plane (denominator
zero), the window being `[0.001, +inf]` as the integrator passes it. -/
theorem triangle_hit_degenerate_accepted :
    (∀ (rotate : vec3 (xdouble ℝ) → vec3 (xdouble ℝ) → vec3 (xdouble ℝ))
        (t_min t_max : xdouble ℝ) (rec : hit_record (xdouble ℝ) Bool),
        triangle.hit rotate (sample_mesh_triangle Real.sqrt)
            ⟨⟨0, 0, 0⟩, ⟨0, 0, -1⟩, 0⟩ t_min t_max rec =
          (true, { rec with
            t := xdouble.nan
            p := ⟨xdouble.nan, xdouble.nan, xdouble.nan⟩
            normal := rotate (sample_mesh_triangle Real.sqrt).normal.to_x
              (sample_mesh_triangle Real.sqrt).rotation.to_x
            mat_ptr := true })) ∧
      xdot ((sample_unit_triangle Real.sqrt).local_direction sample_rotate_x
          ⟨⟨0, 0, 0⟩, ⟨1, 0, 0⟩, 0⟩) (sample_unit_triangle Real.sqrt).normal.to_x =
        xdouble.fin 0 ∧
      triangle.hit sample_rotate_x (sample_unit_triangle Real.sqrt)
          ⟨⟨0, 0, 0⟩, ⟨1, 0, 0⟩, 0⟩ (xdouble.fin 0.001) (xdouble.inf true)
          sample_hit_record =
        (true, { (sample_hit_record : hit_record (xdouble ℝ) Bool) with
          t := xdouble.nan
          p := ⟨xdouble.nan, xdouble.nan, xdouble.nan⟩
          normal := ⟨xdouble.fin 0, xdouble.fin 0, xdouble.fin 1⟩
          mat_ptr := true }) ∧
      triangle.hit sample_rotate_x (sample_unit_triangle Real.sqrt)
          ⟨⟨0, 0, -1⟩, ⟨1, 0, 0⟩, 0⟩ (xdouble.fin 0.001) (xdouble.inf true)
          sample_hit_record =
        (true, { (sample_hit_record : hit_record (xdouble ℝ) Bool) with
          t := xdouble.inf true
          p := ⟨xdouble.inf true, xdouble.nan, xdouble.nan⟩
          normal := ⟨xdouble.fin 0, xdouble.fin 0, xdouble.fin 1⟩
          mat_ptr := true }) := by
  refine ⟨?_, ?_, ?_, ?_⟩
  · intro rotate t_min t_max rec
    exact triangle_hit_of_nan rotate _ _ t_min t_max rec
      (triangle_zero_scale_nan rotate _ _ rfl rfl rfl)
  · rw [sample_unit_triangle_eq]
    simp [triangle.local_direction, divvy, vec3.to_x, sample_rotate_x, xdot,
      xdouble_add_def, xdouble_sub_def, xdouble_mul_def, xdouble_div_def,
      xdouble_neg_def, xdouble.add, xdouble.neg, xdouble.mul, xdouble.div]
  · rw [sample_unit_triangle_eq]
    simp [triangle.hit, triangle.local_origin, triangle.local_direction, divvy, vec3.to_x,
      sample_rotate_x, xdot, xcross, xvec3_add_def, xvec3_sub_def, xvec3_mul_def,
      xvec3_smul_def, xdouble_add_def, xdouble_sub_def, xdouble_mul_def, xdouble_div_def,
      xdouble_neg_def, xdouble.add, xdouble.neg, xdouble.mul, xdouble.div, xdouble.lt,
      sample_hit_record]
  · rw [sample_unit_triangle_eq]
    simp [triangle.hit, triangle.local_origin, triangle.local_direction, divvy, vec3.to_x,
      sample_rotate_x, xdot, xcross, xvec3_add_def, xvec3_sub_def, xvec3_mul_def,
      xvec3_smul_def, xdouble_add_def, xdouble_sub_def, xdouble_mul_def, xdouble_div_def,
      xdouble_neg_def, xdouble.add, xdouble.neg, xdouble.mul, xdouble.div, xdouble.lt,
      sample_hit_record]

/-- C15: over the reals, on the unit triangle `(0,0,0), (1,0,0), (0,1,0)` with the
identity transform and the window `[0.001, +inf]`: the ray from `(1/4, 1/4, 1)` along
`(0,0,-1)` meets the plane at `t = 1` in the point `(1/4, 1/4, 0)`, which is inside the
triangle by the three-edge test, and `hit` rejects it, leaving the record as it was; the
ray from `(-1/4, -1/4, 1)` along `(0,0,-1)` meets the plane at `t = 1` in the point
`(-1/4, -1/4, 0)`, which is outside the triangle, and `hit` accepts it. -/
theorem triangle_hit_inside_rejected :
    (xdot ((sample_unit_triangle Real.sqrt).v0.to_x -
          (sample_unit_triangle Real.sqrt).local_origin ⟨⟨1 / 4, 1 / 4, 1⟩, ⟨0, 0, -1⟩, 0⟩)
          (sample_unit_triangle Real.sqrt).normal.to_x /
        xdot ((sample_unit_triangle Real.sqrt).local_direction sample_rotate_x
          ⟨⟨1 / 4, 1 / 4, 1⟩, ⟨0, 0, -1⟩, 0⟩)
          (sample_unit_triangle Real.sqrt).normal.to_x = xdouble.fin 1) ∧
      ((sample_unit_triangle Real.sqrt).local_origin ⟨⟨1 / 4, 1 / 4, 1⟩, ⟨0, 0, -1⟩, 0⟩ +
          (xdouble.fin 1 : xdouble ℝ) *
            (sample_unit_triangle Real.sqrt).local_direction sample_rotate_x
            ⟨⟨1 / 4, 1 / 4, 1⟩, ⟨0, 0, -1⟩, 0⟩ = vec3.to_x ⟨1 / 4, 1 / 4, 0⟩) ∧
      inside_triangle (sample_unit_triangle Real.sqrt) ⟨1 / 4, 1 / 4, 0⟩ ∧
      triangle.hit sample_rotate_x (sample_unit_triangle Real.sqrt)
          ⟨⟨1 / 4, 1 / 4, 1⟩, ⟨0, 0, -1⟩, 0⟩ (xdouble.fin 0.001) (xdouble.inf true)
          sample_hit_record = (false, sample_hit_record) ∧
      ¬ inside_triangle (sample_unit_triangle Real.sqrt) ⟨-1 / 4, -1 / 4, 0⟩ ∧
      triangle.hit sample_rotate_x (sample_unit_triangle Real.sqrt)
          ⟨⟨-1 / 4, -1 / 4, 1⟩, ⟨0, 0, -1⟩, 0⟩ (xdouble.fin 0.001) (xdouble.inf true)
          sample_hit_record =
        (true, { (sample_hit_record : hit_record (xdouble ℝ) Bool) with
          t := xdouble.fin 1
          p := ⟨xdouble.fin (-1 / 4), xdouble.fin (-1 / 4), xdouble.fin 0⟩
          normal := ⟨xdouble.fin 0, xdouble.fin 0, xdouble.fin 1⟩
          mat_ptr := true }) := by
  rw [sample_unit_triangle_eq]
  refine ⟨?_, ?_, ?_, ?_, ?_, ?_⟩
  · simp [triangle.local_origin, triangle.local_direction, divvy, vec3.to_x,
      sample_rotate_x, xdot, xvec3_sub_def, xdouble_add_def, xdouble_sub_def,
      xdouble_mul_def, xdouble_div_def, xdouble_neg_def, xdouble.add, xdouble.neg,
      xdouble.mul, xdouble.div]
  · simp [triangle.local_origin, triangle.local_direction, divvy, vec3.to_x,
      sample_rotate_x, xvec3_add_def, xvec3_sub_def, xvec3_smul_def, xdouble_add_def,
      xdouble_sub_def, xdouble_mul_def, xdouble_div_def, xdouble_neg_def, xdouble.add,
      xdouble.neg, xdouble.mul, xdouble.div]
  · simp only [inside_triangle, dot, cross, vec3.sub_def]
    norm_num
  · simp [triangle.hit, triangle.local_origin, triangle.local_direction, divvy, vec3.to_x,
      sample_rotate_x, xdot, xcross, xvec3_add_def, xvec3_sub_def, xvec3_mul_def,
      xvec3_smul_def, xdouble_add_def, xdouble_sub_def, xdouble_mul_def, xdouble_div_def,
      xdouble_neg_def, xdouble.add, xdouble.neg, xdouble.mul, xdouble.div, xdouble.lt]
  · simp only [inside_triangle, dot, cross, vec3.sub_def]
    norm_num
  · simp [triangle.hit, triangle.local_origin, triangle.local_direction, divvy, vec3.to_x,
      sample_rotate_x, xdot, xcross, xvec3_add_def, xvec3_sub_def, xvec3_mul_def,
      xvec3_smul_def, xdouble_add_def, xdouble_sub_def, xdouble_mul_def, xdouble_div_def,
      xdouble_neg_def, xdouble.add, xdouble.neg, xdouble.mul, xdouble.div, xdouble.lt]
    norm_num

/-- C16: over the reals, on the unit triangle with scale one and a quarter turn about Y
as its rotation, the ray from `(-1/4, -1/4, 1)` along `(1,0,0)` is accepted in the window
`[0.001, +inf]` with `t = 1` and the local hit point `(-1/4, -1/4, 0)`; the record gets
`t`, the material, the normal rotated to `(1,0,0)`, and as hit point `(-1/4, -1/4, 0)`,
the local point scaled and translated but not rotated, whereas scaling, rotating and
translating it gives `(0, -1/4, 1/4)`. -/
theorem triangle_hit_point_unrotated :
    triangle.hit sample_rotate_x (sample_turned_triangle Real.sqrt)
        ⟨⟨-1 / 4, -1 / 4, 1⟩, ⟨1, 0, 0⟩, 0⟩ (xdouble.fin 0.001) (xdouble.inf true)
        sample_hit_record =
      (true, { (sample_hit_record : hit_record (xdouble ℝ) Bool) with
        t := xdouble.fin 1
        p := ⟨xdouble.fin (-1 / 4), xdouble.fin (-1 / 4), xdouble.fin 0⟩
        normal := ⟨xdouble.fin 1, xdouble.fin 0, xdouble.fin 0⟩
        mat_ptr := true }) ∧
      ((sample_turned_triangle Real.sqrt).local_origin ⟨⟨-1 / 4, -1 / 4, 1⟩, ⟨1, 0, 0⟩, 0⟩ +
          (xdouble.fin 1 : xdouble ℝ) *
            (sample_turned_triangle Real.sqrt).local_direction sample_rotate_x
            ⟨⟨-1 / 4, -1 / 4, 1⟩, ⟨1, 0, 0⟩, 0⟩ = vec3.to_x ⟨-1 / 4, -1 / 4, 0⟩) ∧
      world_point sample_rotate_x (sample_turned_triangle Real.sqrt)
          (vec3.to_x ⟨-1 / 4, -1 / 4, 0⟩) = vec3.to_x ⟨0, -1 / 4, 1 / 4⟩ ∧
      (vec3.to_x ⟨-1 / 4, -1 / 4, 0⟩ : vec3 (xdouble ℝ)) ≠ vec3.to_x ⟨0, -1 / 4, 1 / 4⟩ := by
  rw [sample_turned_triangle_eq]
  refine ⟨?_, ?_, ?_, ?_⟩
  · simp [triangle.hit, triangle.local_origin, triangle.local_direction, divvy, vec3.to_x,
      sample_rotate_x, xdot, xcross, xvec3_add_def, xvec3_sub_def, xvec3_mul_def,
      xvec3_smul_def, xdouble_add_def, xdouble_sub_def, xdouble_mul_def, xdouble_div_def,
      xdouble_neg_def, xdouble.add, xdouble.neg, xdouble.mul, xdouble.div, xdouble.lt]
    norm_num
  · simp [triangle.local_origin, triangle.local_direction, divvy, vec3.to_x,
      sample_rotate_x, xvec3_add_def, xvec3_sub_def, xvec3_smul_def, xdouble_add_def,
      xdouble_sub_def, xdouble_mul_def, xdouble_div_def, xdouble_neg_def, xdouble.add,
      xdouble.neg, xdouble.mul, xdouble.div]
    norm_num
  · simp [world_point, vec3.to_x, sample_rotate_x, xvec3_add_def, xvec3_mul_def,
      xdouble_add_def, xdouble_sub_def, xdouble_mul_def, xdouble_div_def,
      xdouble_neg_def, xdouble.add, xdouble.neg, xdouble.mul, xdouble.div]
    norm_num
  · simp [vec3.to_x]

end HitEvaluation


/-! ### Sample coordinates -/

section SampleCoordinates

variable {K M σ : Type} [LinearOrderedField K]

/-- One iteration of the sample loop of `render_tile` computes the coordinates of
`render_tile_uv`, asks the camera for the ray and goes on with the colour added. -/
theorem render_tile_samples_succ [FloorRing K] (mats : M → material K M σ)
    (random_double : σ → K × σ) (max_depth width height : Int) (cam : camera K σ)
    (world : hittable K M σ) (background : vec3 K) (i j : Int) (n : Nat)
    (pixel_color : vec3 K) (st : σ) :
    render_tile_samples mats random_double max_depth width height cam world background
        i j (n + 1) pixel_color st =
      (render_tile_uv random_double width height i j st).bind (fun uv =>
        render_tile_samples mats random_double max_depth width height cam world
          background i j n
          (pixel_color + (ray_colora mats (cam.get_ray uv.1 uv.2.1 uv.2.2).1 background
            world max_depth (cam.get_ray uv.1 uv.2.1 uv.2.2).2).value)
          (ray_colora mats (cam.get_ray uv.1 uv.2.1 uv.2.2).1 background
            world max_depth (cam.get_ray uv.1 uv.2.1 uv.2.2).2).state) := by
  simp only [render_tile_samples, render_tile_uv, Option.bind_eq_bind]
  cases int_sub width 1 <;> [rfl; skip]
  cases int_sub height 1 <;> rfl

/-- One iteration of the sample loop of `main` computes the coordinates of `main_uv`,
asks the camera for the ray and goes on with the colour added. -/
theorem main_samples_succ (mats : M → material K M σ)
    (random_double : σ → K × σ) (max_depth image_width image_height : Int)
    (cam : camera K σ) (world : hittable K M σ) (background : vec3 K) (i j : Int)
    (n : Nat) (pixel_color : vec3 K) (st : σ) :
    main_samples mats random_double max_depth image_width image_height cam world
        background i j (n + 1) pixel_color st =
      (main_uv random_double image_width image_height i j st).bind (fun uv =>
        main_samples mats random_double max_depth image_width image_height cam world
          background i j n
          (pixel_color + (ray_color mats (cam.get_ray uv.1 uv.2.1 uv.2.2).1 background
            world max_depth (cam.get_ray uv.1 uv.2.1 uv.2.2).2).value)
          (ray_color mats (cam.get_ray uv.1 uv.2.1 uv.2.2).1 background
            world max_depth (cam.get_ray uv.1 uv.2.1 uv.2.2).2).state) := by
  simp only [main_samples, main_uv, Option.bind_eq_bind]
  cases int_sub image_width 1 <;> [rfl; skip]
  cases int_sub image_height 1 <;> rfl

/-- The loop of `main` computes its sample coordinates as `render_tile` does. -/
theorem main_uv_eq (random_double : σ → K × σ) (width height i j : Int) (st : σ) :
    main_uv random_double width height i j st =
      render_tile_uv random_double width height i j st := rfl

end SampleCoordinates

end TilesRT
